import Mathlib

set_option maxRecDepth 20000
set_option maxHeartbeats 1000000

namespace WebSummarizer

/-!
Shallow embedding of the response-normalization and stream-accumulation
logic of `src/hooks/useSummarizer.ts` and of `src/utils/storage.ts`.
JavaScript runtime values are modelled by `JSValue`; machine details that the
claims depend on (truthiness, property lookup on objects and arrays,
strict-mode `TypeError` on property access of `null`/`undefined` and on
property assignment to primitives, object spread with insertion-order
override) are modelled explicitly.  Strings are modelled as sequences of
Unicode scalar values, so a UTF-16 code unit of JavaScript corresponds to one
character here for all inputs in the Basic Multilingual Plane.
-/

/-- Model of a JavaScript runtime value.  `jarr` carries both the element
list and the list of named (non-index) expando properties, since the code
under verification assigns named properties to values that may be arrays. -/
inductive JSValue where
  | jundef
  | jnull
  | jbool (b : Bool)
  | jnum (q : Rat)
  | jstr (s : String)
  | jarr (elems : List JSValue) (props : List (String × JSValue))
  | jobj (props : List (String × JSValue))

open JSValue

/-- JavaScript truthiness: `undefined`, `null`, `false`, `0`, `NaN` and the
empty string are falsy, every other value (including every object) is truthy. -/
def truthy : JSValue → Bool
  | jundef => false
  | jnull => false
  | jbool b => b
  | jnum q => !(q == 0)
  | jstr s => !(s == "")
  | jarr _ _ => true
  | jobj _ => true

/-- Whether the value is a string primitive (`typeof v === 'string'`). -/
def isStrB : JSValue → Bool
  | jstr _ => true
  | _ => false

/-- Model of `Array.isArray`. -/
def isArrB : JSValue → Bool
  | jarr _ _ => true
  | _ => false

/-- Whether `v && typeof v === 'object'` holds: a non-null object or array. -/
def objLikeB : JSValue → Bool
  | jarr _ _ => true
  | jobj _ => true
  | _ => false

/-- First-match lookup in a property list. -/
def plookup : List (String × JSValue) → String → Option JSValue
  | [], _ => none
  | (k', v) :: t, k => if k' = k then some v else plookup t k

/-- Model of property assignment `o[k] = v` on a property list: replace the
value at the first occurrence of `k`, or append a new entry.  This is the
JavaScript behaviour: assignment keeps the key at its original insertion
position. -/
def objSet : List (String × JSValue) → String → JSValue → List (String × JSValue)
  | [], k, v => [(k, v)]
  | (k', v') :: t, k, v => if k' = k then (k', v) :: t else (k', v') :: objSet t k v

/-- Fold a list of updates over a base property list, later entries
overriding earlier ones, as a sequence of JavaScript assignments does. -/
def assign (base : List (String × JSValue)) (upds : List (String × JSValue)) :
    List (String × JSValue) :=
  upds.foldl (fun acc p => objSet acc p.1 p.2) base

/-- Decimal digit list of a natural number, fuel-driven; `decStr` below
supplies enough fuel.  Models JavaScript number-to-string for the natural
numbers the code interpolates into template strings. -/
def decStrAux : Nat → Nat → List Char
  | 0, _ => []
  | fuel + 1, n =>
    if n < 10 then [Nat.digitChar n]
    else decStrAux fuel (n / 10) ++ [Nat.digitChar (n % 10)]

/-- Decimal rendering of a natural number (model of `${n}` for a JS integer). -/
def decStr (n : Nat) : String := String.mk (decStrAux (n + 1) n)

/-- Decimal evaluation of a digit list, used to prove `decStr` injective. -/
def decVal (l : List Char) : Nat := l.foldl (fun a c => a * 10 + (c.toNat - 48)) 0

/-- Characters treated as whitespace by the JavaScript `trim`, `\s` and
split operations modelled here (the common ASCII set plus no-break space). -/
def jsWs (c : Char) : Bool :=
  c = ' ' || c = '\t' || c = '\n' || c = '\r' || c = '\x0b' || c = '\x0c' || c = '\u00A0'

/-- Model of `String.prototype.trim`. -/
def jsTrim (s : String) : String :=
  String.mk (((s.data.dropWhile jsWs).reverse.dropWhile jsWs).reverse)

mutual
/-- Split state: accumulating the current (reversed) segment.  Models the
segment-splitting of `String.prototype.split` on a character-class regex
with `+`: separators are maximal runs of characters satisfying `p`, and
empty segments at the boundaries are kept, as JavaScript does. -/
def splitRunsGo (p : Char → Bool) (cur : List Char) : List Char → List (List Char)
  | [] => [cur.reverse]
  | c :: t => if p c then cur.reverse :: splitRunsSkip p t else splitRunsGo p (c :: cur) t

/-- Split state: inside a separator run. -/
def splitRunsSkip (p : Char → Bool) : List Char → List (List Char)
  | [] => [[]]
  | c :: t => if p c then splitRunsSkip p t else splitRunsGo p [c] t
end

/-- Model of `s.split(regex)` where the regex is a character class of `p`
with a `+` quantifier. -/
def splitRuns (p : Char → Bool) (l : List Char) : List (List Char) :=
  splitRunsGo p [] l

/-- Model of `estimateReadingTime` (useSummarizer.ts lines 448-453): the
word count is `text.split(/\s+/).length`, minutes is the count divided by
200 words per minute and rounded up, rendered as a Chinese "minutes" string. -/
def estimateReadingTime (text : String) : String :=
  decStr (((splitRuns jsWs text.data).length + 199) / 200) ++ " 分钟"

/-- Sentence delimiters of `extractKeyPointsFromText`: `[.。!！?？]`. -/
def sentenceDelim (c : Char) : Bool :=
  c = '.' || c = '。' || c = '!' || c = '！' || c = '?' || c = '？'

/-- Model of `extractKeyPointsFromText` (useSummarizer.ts lines 427-430):
split on sentence delimiters, keep segments whose trimmed form is longer
than 10 characters, take the first five, return them trimmed. -/
def extractKeyPointsFromText (text : String) : List String :=
  ((((splitRuns sentenceDelim text.data).map String.mk).filter
      (fun s => 10 < (jsTrim s).length)).take 5).map jsTrim

/-- Whether a character is a CJK ideograph in the range `一`-`鿿`. -/
def isCJK (c : Char) : Bool := 0x4e00 ≤ c.toNat && c.toNat ≤ 0x9fff

/-- Whether a character matches `[a-zA-Z]`. -/
def isLatin (c : Char) : Bool :=
  ('a' ≤ c && c ≤ 'z') || ('A' ≤ c && c ≤ 'Z')

/-- Token scan of `text.match(/[一-鿿]{2,}|[a-zA-Z]{3,}/g)`: the
matches are the maximal CJK runs of length at least 2 and the maximal Latin
letter runs of length at least 3, in order.  Fuel-driven; the caller passes
the input length. -/
def lexTok : Nat → List Char → List String
  | 0, _ => []
  | _ + 1, [] => []
  | fuel + 1, c :: t =>
    if isCJK c then
      let run := c :: t.takeWhile isCJK
      let rest := t.dropWhile isCJK
      (if 2 ≤ run.length then [String.mk run] else []) ++ lexTok fuel rest
    else if isLatin c then
      let run := c :: t.takeWhile isLatin
      let rest := t.dropWhile isLatin
      (if 3 ≤ run.length then [String.mk run] else []) ++ lexTok fuel rest
    else lexTok fuel t

/-- Occurrence counting in first-seen order, modelling the `reduce` into a
plain object whose `Object.entries` enumerate insertion order. -/
def countTokens : List String → List (String × Nat) → List (String × Nat)
  | [], acc => acc
  | w :: t, acc =>
    let acc' :=
      if (acc.find? (fun p => p.1 = w)).isSome then
        acc.map (fun p => if p.1 = w then (p.1, p.2 + 1) else p)
      else acc ++ [(w, 1)]
    countTokens t acc'

/-- Stable descending insertion, modelling the stable `sort(([,a],[,b]) => b - a)`. -/
def insDesc (x : String × Nat) : List (String × Nat) → List (String × Nat)
  | [] => [x]
  | y :: t => if x.2 ≤ y.2 then y :: insDesc x t else x :: y :: t

/-- Model of `extractKeywordsFromText` (useSummarizer.ts lines 433-445):
token scan, frequency count, stable sort by descending count, first eight. -/
def extractKeywordsFromText (text : String) : List String :=
  let toks := lexTok text.data.length text.data
  let counted := countTokens toks []
  ((counted.foldl (fun acc x => insDesc x acc) []).take 8).map Prod.fst

/-- Case-insensitive match of the literal `json` after the opening fence
(the regex carries the `i` flag). -/
def jsonLabelCI : List Char → Bool
  | j :: s :: o :: n :: _ =>
    (j = 'j' || j = 'J') && (s = 's' || s = 'S') && (o = 'o' || o = 'O') &&
      (n = 'n' || n = 'N')
  | _ => false

/-- Whether the remaining input closes the fence: optional whitespace then
three backticks, modelling the tail `\s*` and fence of the regex with the
backtracking of a greedy `\s*` resolved (a shorter whitespace run would
leave a whitespace character where a backtick is required). -/
def fenceCloseOk (l : List Char) : Bool :=
  match l.dropWhile jsWs with
  | a :: b :: c :: _ => a = '\x60' && b = '\x60' && c = '\x60'
  | _ => false

/-- Lazy search for the closing brace of the capture group `\{[\s\S]*?\}`:
the first `}` whose remainder closes the fence ends the group; any earlier
`}` is swallowed into the group, as the lazy quantifier with backtracking
does. -/
def fenceBody (acc : List Char) : List Char → Option (List Char)
  | [] => none
  | c :: t =>
    if c = '\x7d' && fenceCloseOk t then some acc.reverse
    else fenceBody (c :: acc) t

/-- Attempt to match `/\x60\x60\x60(?:json)?\s*(\{[\s\S]*?\})\s*\x60\x60\x60/i`
at the head of the input, returning the capture group (braces included). -/
def fenceAt (l : List Char) : Option String :=
  match l with
  | a :: b :: c :: t =>
    if a = '\x60' && b = '\x60' && c = '\x60' then
      let t1 := if jsonLabelCI t then t.drop 4 else t
      match t1.dropWhile jsWs with
      | '\x7b' :: rest =>
        (fenceBody [] rest).map (fun body => String.mk ('\x7b' :: (body ++ ['\x7d'])))
      | _ => none
    else none
  | _ => none

/-- Leftmost-match scan of the fence regex over the whole string. -/
def fenceScan : List Char → Option String
  | [] => none
  | c :: t =>
    match fenceAt (c :: t) with
    | some g => some g
    | none => fenceScan t

/-- Model of `cleanResult.match(/\x60\x60\x60(?:json)?\s*(\{[\s\S]*?\})\s*\x60\x60\x60/i)`
followed by taking capture group 1 (useSummarizer.ts line 376). -/
def fenceMatch (s : String) : Option String := fenceScan s.data

/-- JSON whitespace (RFC 8259): space, tab, line feed, carriage return. -/
def jsonWs (c : Char) : Bool := c = ' ' || c = '\t' || c = '\n' || c = '\r'

/-- Whether a character is an ASCII decimal digit. -/
def isDigitC (c : Char) : Bool := '0' ≤ c && c ≤ '9'

/-- Value of a hexadecimal digit, 0 for other characters. -/
def hexVal (c : Char) : Nat :=
  if '0' ≤ c && c ≤ '9' then c.toNat - 48
  else if 'a' ≤ c && c ≤ 'f' then c.toNat - 87
  else if 'A' ≤ c && c ≤ 'F' then c.toNat - 55
  else 0

/-- Whether a character is a hexadecimal digit. -/
def isHexC (c : Char) : Bool :=
  ('0' ≤ c && c ≤ '9') || ('a' ≤ c && c ≤ 'f') || ('A' ≤ c && c ≤ 'F')

/-- String body of a JSON string literal, after the opening quote.  Handles
the JSON escapes; a `\uXXXX` high-surrogate escape must be followed by a
low-surrogate escape (the pair is combined), since a lone surrogate has no
counterpart among Unicode scalar values, the model's characters. -/
def parseStrA : Nat → List Char → Option (List Char × List Char)
  | 0, _ => none
  | _ + 1, [] => none
  | fuel + 1, c :: t =>
    if c = '"' then some ([], t)
    else if c = '\\' then
      match t with
      | e :: t2 =>
        if e = '"' || e = '\\' || e = '/' then
          (parseStrA fuel t2).map (fun p => (e :: p.1, p.2))
        else if e = 'b' then (parseStrA fuel t2).map (fun p => ('\x08' :: p.1, p.2))
        else if e = 'f' then (parseStrA fuel t2).map (fun p => ('\x0c' :: p.1, p.2))
        else if e = 'n' then (parseStrA fuel t2).map (fun p => ('\n' :: p.1, p.2))
        else if e = 'r' then (parseStrA fuel t2).map (fun p => ('\r' :: p.1, p.2))
        else if e = 't' then (parseStrA fuel t2).map (fun p => ('\t' :: p.1, p.2))
        else if e = 'u' then
          match t2 with
          | h1 :: h2 :: h3 :: h4 :: t3 =>
            if isHexC h1 && isHexC h2 && isHexC h3 && isHexC h4 then
              let code := ((hexVal h1 * 16 + hexVal h2) * 16 + hexVal h3) * 16 + hexVal h4
              if 0xd800 ≤ code && code < 0xdc00 then
                match t3 with
                | b1 :: u :: g1 :: g2 :: g3 :: g4 :: t4 =>
                  if b1 = '\\' && u = 'u' && isHexC g1 && isHexC g2 && isHexC g3 && isHexC g4 then
                    let lo := ((hexVal g1 * 16 + hexVal g2) * 16 + hexVal g3) * 16 + hexVal g4
                    if 0xdc00 ≤ lo && lo < 0xe000 then
                      let cp := 0x10000 + (code - 0xd800) * 0x400 + (lo - 0xdc00)
                      (parseStrA fuel t4).map (fun p => (Char.ofNat cp :: p.1, p.2))
                    else none
                  else none
                | _ => none
              else if 0xdc00 ≤ code && code < 0xe000 then none
              else (parseStrA fuel t3).map (fun p => (Char.ofNat code :: p.1, p.2))
            else none
          | _ => none
        else none
      | [] => none
    else if c.toNat < 0x20 then none
    else (parseStrA fuel t).map (fun p => (c :: p.1, p.2))

/-- Digit run and its value. -/
def digitsRun (l : List Char) : List Char × List Char :=
  (l.takeWhile isDigitC, l.dropWhile isDigitC)

/-- Natural value of a digit list. -/
def digitsVal (l : List Char) : Nat := l.foldl (fun a c => a * 10 + (c.toNat - 48)) 0

/-- JSON number literal: optional minus, integer part without leading
zeros, optional fraction, optional exponent, evaluated exactly as a
rational (JavaScript's float rounding is not modelled; no claim inspects a
non-representable numeric value). -/
def parseNum (l : List Char) : Option (Rat × List Char) := do
  let (neg, l1) := match l with
    | '-' :: t => (true, t)
    | _ => (false, l)
  let (ip, l2) := digitsRun l1
  match ip with
  | [] => none
  | '0' :: _ :: _ => none
  | _ => do
    let intPart : Rat := (digitsVal ip : Nat)
    let (fracPart, l3) ←
      match l2 with
      | '.' :: t =>
        let (fd, t2) := digitsRun t
        match fd with
        | [] => none
        | _ => some ((digitsVal fd : Rat) / ((10 : Rat) ^ fd.length), t2)
      | _ => some ((0 : Rat), l2)
    let (scale, l4) ←
      match l3 with
      | 'e' :: t | 'E' :: t =>
        let (esign, t1) := match t with
          | '+' :: t2 => (false, t2)
          | '-' :: t2 => (true, t2)
          | _ => (false, t)
        let (ed, t2) := digitsRun t1
        match ed with
        | [] => none
        | _ =>
          let e := digitsVal ed
          some ((if esign then (1 : Rat) / ((10 : Rat) ^ e) else ((10 : Rat) ^ e)), t2)
      | _ => some ((1 : Rat), l3)
    let v := (intPart + fracPart) * scale
    some ((if neg then -v else v), l4)

mutual
/-- Recursive-descent JSON value grammar, fuel-driven; every recursive call
strictly decreases the fuel and consumes input, so fuel twice the input
length plus two suffices. -/
def parseJ : Nat → List Char → Option (JSValue × List Char)
  | 0, _ => none
  | fuel + 1, l =>
    match l.dropWhile jsonWs with
    | 'n' :: 'u' :: 'l' :: 'l' :: r => some (jnull, r)
    | 't' :: 'r' :: 'u' :: 'e' :: r => some (jbool true, r)
    | 'f' :: 'a' :: 'l' :: 's' :: 'e' :: r => some (jbool false, r)
    | '"' :: r => (parseStrA (r.length + 1) r).map (fun p => (jstr (String.mk p.1), p.2))
    | '[' :: r =>
      (match r.dropWhile jsonWs with
       | ']' :: r2 => some (jarr [] [], r2)
       | _ => (parseArrItems fuel r).map (fun p => (jarr p.1 [], p.2)))
    | '\x7b' :: r =>
      (match r.dropWhile jsonWs with
       | '\x7d' :: r2 => some (jobj [], r2)
       | _ => (parseObjItems fuel r []).map (fun p => (jobj p.1, p.2)))
    | c :: r =>
      if c = '-' || isDigitC c then
        (parseNum (c :: r)).map (fun p => (jnum p.1, p.2))
      else none
    | [] => none

/-- Array element list after the opening bracket (nonempty case). -/
def parseArrItems : Nat → List Char → Option (List JSValue × List Char)
  | 0, _ => none
  | fuel + 1, l => do
    let (v, r) ← parseJ fuel l
    match r.dropWhile jsonWs with
    | ',' :: r2 => (parseArrItems fuel r2).map (fun p => (v :: p.1, p.2))
    | ']' :: r2 => some ([v], r2)
    | _ => none

/-- Object member list after the opening brace (nonempty case); a repeated
key keeps the position of its first occurrence with the last value, as
`JSON.parse` does. -/
def parseObjItems : Nat → List Char → List (String × JSValue) →
    Option (List (String × JSValue) × List Char)
  | 0, _, _ => none
  | fuel + 1, l, acc =>
    match l.dropWhile jsonWs with
    | '"' :: r => do
      let (ks, r1) ← parseStrA (r.length + 1) r
      match r1.dropWhile jsonWs with
      | ':' :: r2 => do
        let (v, r3) ← parseJ fuel r2
        let acc' := objSet acc (String.mk ks) v
        match r3.dropWhile jsonWs with
        | ',' :: r4 => parseObjItems fuel r4 acc'
        | '\x7d' :: r4 => some (acc', r4)
        | _ => none
      | _ => none
    | _ => none
end

/-- Model of `JSON.parse`: parse one value and require only whitespace to
follow. -/
def jsonParse (s : String) : Option JSValue :=
  match parseJ (2 * s.data.length + 2) s.data with
  | some (v, r) => if (r.dropWhile jsonWs).isEmpty then some v else none
  | none => none

/-- Total property read on values where it cannot throw.  For an object it
is lookup in the property list; for an array, `length` answers the element
count and other names are looked up among the expando properties; reading a
named property of a primitive yields `undefined`.  (Numeric indices and
string `length` are never read by the code under verification.) -/
def getF : JSValue → String → JSValue
  | jobj l, k => (plookup l k).getD jundef
  | jarr es l, k => if k = "length" then jnum es.length else (plookup l k).getD jundef
  | _, _ => jundef

/-- Property read as the strict-mode evaluator performs it: reading from
`null` or `undefined` throws a `TypeError`. -/
def getFieldE : JSValue → String → Except String JSValue
  | jundef, _ => .error "TypeError: cannot read properties of undefined"
  | jnull, _ => .error "TypeError: cannot read properties of null"
  | v, k => .ok (getF v k)

/-- Property assignment as the strict-mode evaluator performs it: only
objects and arrays accept a named property; assigning to a primitive,
`null` or `undefined` throws a `TypeError`. -/
def setFieldE : JSValue → String → JSValue → Except String JSValue
  | jobj l, k, x => .ok (jobj (objSet l k x))
  | jarr es l, k, x => .ok (jarr es (objSet l k x))
  | _, _, _ => .error "TypeError: cannot assign property"

/-- Own enumerable properties in enumeration order, as object spread
`{...v}` copies them: an object contributes its property list, an array its
index-keyed elements then its expando properties, a string its index-keyed
characters; primitives contribute nothing. -/
def objSpreadList : JSValue → List (String × JSValue)
  | jobj l => l
  | jarr es l => (es.enum.map (fun p => (decStr p.1, p.2))) ++ l
  | jstr s => s.data.enum.map (fun p => (decStr p.1, jstr (String.mk [p.2])))
  | _ => []

/-- Method call `v.trim()`: only a string receiver has the method; any
other receiver throws a `TypeError`. -/
def trimCallE : JSValue → Except String String
  | jstr s => .ok (jsTrim s)
  | _ => .error "TypeError: trim is not a function"

/-- One step of the highlight-enhancement `map` (useSummarizer.ts lines
484-488): spread the element, assign `id` from the element's own truthy
`id` or the positional fallback, assign `type` from the element's own
truthy `type` or `'important'`.  Reading `.id` of a `null` or `undefined`
element throws. -/
def hlMapOne (i : Nat) (h : JSValue) : Except String JSValue := do
  let hid ← getFieldE h "id"
  let htype ← getFieldE h "type"
  .ok (jobj (objSet (objSet (objSpreadList h) "id"
    (if truthy hid then hid else jstr ("highlight-" ++ decStr i))) "type"
    (if truthy htype then htype else jstr "important")))

/-- The highlight `map` over a whole element list, indices from `i`. -/
def hlMapAll (i : Nat) : List JSValue → Except String (List JSValue)
  | [] => .ok []
  | h :: t => do
    let x ← hlMapOne i h
    let r ← hlMapAll (i + 1) t
    .ok (x :: r)

/-- Placeholder title `网页分析结果`. -/
def defaultTitle : String := "网页分析结果"

/-- Placeholder summary of the validation step, `无法获取有效摘要`. -/
def defaultSummaryV : String := "无法获取有效摘要"

/-- Placeholder summary of the object branch, `无法获取摘要`. -/
def defaultSummaryO : String := "无法获取摘要"

/-- One defaulting step of the shape `if (!data.k || data.k.trim() === '')
data.k = default`, as used for `title` and `summary`. -/
def vStepStr (key dflt : String) (v : JSValue) : Except String JSValue := do
  let t ← getFieldE v key
  if truthy t then do
    let s ← trimCallE t
    if s = "" then setFieldE v key (jstr dflt) else .ok v
  else setFieldE v key (jstr dflt)

/-- One defaulting step of the shape `if (!Array.isArray(data.k)) data.k = []`. -/
def vStepArr (key : String) (v : JSValue) : Except String JSValue := do
  let x ← getFieldE v key
  if isArrB x then .ok v else setFieldE v key (jarr [] [])

/-- The reading-time step `if (!data.readingTime) data.readingTime =
estimateReadingTime(data.summary)`; calling `split` on a non-string summary
would throw. -/
def vStepRT (v : JSValue) : Except String JSValue := do
  let rt ← getFieldE v "readingTime"
  if truthy rt then .ok v
  else do
    let sm ← getFieldE v "summary"
    match sm with
    | jstr s => setFieldE v "readingTime" (jstr (estimateReadingTime s))
    | _ => .error "TypeError: split is not a function"

/-- One defaulting step of the shape `if (!data.k) data.k = dv`, as used
for `sourceUrl` and `createdAt`. -/
def vStepDefault (key : String) (dv : JSValue) (v : JSValue) : Except String JSValue := do
  let x ← getFieldE v key
  if truthy x then .ok v else setFieldE v key dv

/-- The final `data.highlights = data.highlights.map(...)` step; calling
`map` on a non-array would throw (unreachable after the array-defaulting
step). -/
def vStepHl (v : JSValue) : Except String JSValue := do
  let hv ← getFieldE v "highlights"
  match hv with
  | jarr es _ => do
    let es2 ← hlMapAll 0 es
    setFieldE v "highlights" (jarr es2 [])
  | _ => .error "TypeError: map is not a function"

/-- Model of `validateAndEnhanceData` (useSummarizer.ts lines 456-491),
with the mutation of `data` threaded explicitly and each property access
or assignment able to throw exactly where strict-mode JavaScript throws.
The steps are, in source order: default a missing or blank `title` and
`summary`, replace non-array `keyPoints`, `keywords` and `highlights` with
empty arrays, derive a missing `readingTime` from the summary, default
`sourceUrl` to the request url and `createdAt` to the current time, then
map the highlight-enhancement step over `highlights`. -/
def validateAndEnhanceData (v0 : JSValue) (url now : String) : Except String JSValue :=
  vStepStr "title" defaultTitle v0 >>= vStepStr "summary" defaultSummaryV >>=
    vStepArr "keyPoints" >>= vStepArr "keywords" >>= vStepArr "highlights" >>=
    vStepRT >>= vStepDefault "sourceUrl" (jstr url) >>=
    vStepDefault "createdAt" (jstr now) >>= vStepHl

/-- The eight recognized fields of the object branch of `parseApiResponse`
(useSummarizer.ts lines 400-412), resolved by the per-field fallback
chains, in the order the object literal lists them. -/
def recognizedBase (r : JSValue) (url now : String) : List (String × JSValue) :=
  [("title", if truthy (getF r "title") then getF r "title" else jstr defaultTitle),
   ("summary",
     if truthy (getF r "summary") then getF r "summary"
     else if truthy (getF r "content") then getF r "content"
     else jstr defaultSummaryO),
   ("keyPoints",
     if isArrB (getF r "keyPoints") then getF r "keyPoints"
     else if isArrB (getF r "key_points") then getF r "key_points"
     else if truthy (getF r "keyPoints") then jarr [getF r "keyPoints"] []
     else jarr [] []),
   ("keywords",
     if isArrB (getF r "keywords") then getF r "keywords"
     else if isArrB (getF r "tags") then getF r "tags"
     else if truthy (getF r "keywords") then jarr [getF r "keywords"] []
     else jarr [] []),
   ("highlights",
     if isArrB (getF r "highlights") then getF r "highlights" else jarr [] []),
   ("readingTime",
     if truthy (getF r "readingTime") then getF r "readingTime"
     else if truthy (getF r "reading_time") then getF r "reading_time"
     else jstr "未知"),
   ("sourceUrl", if truthy (getF r "sourceUrl") then getF r "sourceUrl" else jstr url),
   ("createdAt", if truthy (getF r "createdAt") then getF r "createdAt" else jstr now)]

/-- Property list of the object literal of the object branch: the eight
resolved fields, then `...result` spread over them, so the source's own
properties override the resolved values and additional properties are
appended. -/
def objBranchList (r : JSValue) (url now : String) : List (String × JSValue) :=
  assign (recognizedBase r url now) (objSpreadList r)

/-- The object built by the object branch of `parseApiResponse`. -/
def objBranch (r : JSValue) (url now : String) : JSValue :=
  jobj (objBranchList r url now)

/-- The record synthesized in the string branch when JSON parsing fails
(useSummarizer.ts lines 386-395). -/
def catchRecord (s url now : String) : JSValue :=
  jobj [("title", jstr defaultTitle), ("summary", jstr s),
        ("keyPoints", jarr ((extractKeyPointsFromText s).map jstr) []),
        ("keywords", jarr ((extractKeywordsFromText s).map jstr) []),
        ("highlights", jarr [] []),
        ("readingTime", jstr (estimateReadingTime s)),
        ("sourceUrl", jstr url), ("createdAt", jstr now)]

/-- Model of `parseApiResponse` (useSummarizer.ts lines 366-424).  A string
is trimmed, a fenced code block is extracted when the fence regex matches,
and the candidate is JSON-parsed: on success the parsed value continues as
the data (whatever its type), on failure the catch branch synthesizes a
record from the raw text.  A non-null object (or array) goes through the
object branch.  Anything else throws the format error.  All paths end in
`validateAndEnhanceData`; `now` stands for `new Date().toISOString()`. -/
def parseApiResponse (raw : JSValue) (url now : String) : Except String JSValue :=
  match raw with
  | jstr s =>
    let clean := jsTrim s
    let cand := match fenceMatch clean with
      | some g => g
      | none => clean
    (match jsonParse cand with
     | some parsed => validateAndEnhanceData parsed url now
     | none => validateAndEnhanceData (catchRecord s url now) url now)
  | jobj _ => validateAndEnhanceData (objBranch raw url now) url now
  | jarr _ _ => validateAndEnhanceData (objBranch raw url now) url now
  | _ => .error "API返回数据格式不正确"

/-- Concatenation of a chunk list, the specification-side reading of
`c1+c2+...+cn`. -/
def joinAll : List String → String
  | [] => ""
  | c :: t => c ++ joinAll t

/-- Property assignment on a value known to be an object or array (the
total core of `setFieldE`); other values are returned unchanged. -/
def setV (v : JSValue) (k : String) (x : JSValue) : JSValue :=
  match v with
  | jobj l => jobj (objSet l k x)
  | jarr es l => jarr es (objSet l k x)
  | w => w

/-- The key list of a property list. -/
def keysOf (l : List (String × JSValue)) : List String := l.map Prod.fst

/-- A truthy non-string: calling `.trim()` on such a value throws. -/
def badTS (x : JSValue) : Bool := truthy x && !isStrB x

/-- A string whose trimmed form is nonempty: such a `title` or `summary`
survives the validation step unchanged. -/
def goodStrB : JSValue → Bool
  | jstr s => !(jsTrim s == "")
  | _ => false

/-- Whether a highlight element list makes the enhancement `map` throw:
reading `.id` of a `null` or `undefined` element does. -/
def hlBadList (es : List JSValue) : Bool :=
  es.any (fun e =>
    match e with
    | jnull => true
    | jundef => true
    | _ => false)

/-- A highlight element after enhancement: an object with truthy `id` and
truthy `type`, on which the enhancement `map` is the identity. -/
def hlGoodB : JSValue → Bool
  | jobj l =>
    truthy ((plookup l "id").getD jundef) && truthy ((plookup l "type").getD jundef)
  | _ => false

/-- Whether `validateAndEnhanceData` throws on a value: on anything that is
not an object or array it does (a property read of `null`/`undefined` or a
property assignment to a primitive throws in strict mode); on an object or
array it throws exactly when the `title` or `summary` is a truthy
non-string or the `highlights` is an array containing `null`/`undefined`. -/
def vThrows (v : JSValue) : Bool :=
  match v with
  | jobj _ | jarr _ _ =>
    badTS (getF v "title") || badTS (getF v "summary") ||
      (match getF v "highlights" with
       | jarr es _ => hlBadList es
       | _ => false)
  | _ => true

/-- Lookup among the own enumerable (spread-visible) properties. -/
def spreadGet (r : JSValue) (k : String) : Option JSValue :=
  plookup (objSpreadList r) k

/-- Whether the object branch followed by validation throws, phrased on the
source object: its own `title` (resp. `summary`) overrides the resolved
value and throws when truthy non-string; with no own `summary`, the
resolved `content` fallback throws when truthy non-string; an own
`highlights` array containing `null`/`undefined` throws in the enhancement
`map`. -/
def oThrows (r : JSValue) : Bool :=
  (match spreadGet r "title" with
   | some x => badTS x
   | none => false) ||
  (match spreadGet r "summary" with
   | some x => badTS x
   | none => badTS (getF r "content")) ||
  (match spreadGet r "highlights" with
   | some (jarr es _) => hlBadList es
   | some _ => false
   | none => false)

/-- Whether `parseApiResponse` throws, phrased on the raw input: always for
a value that is neither a string nor a non-null object; for a string,
exactly when the fence-extracted candidate parses as JSON to a value on
which validation throws (a JSON-parse failure takes the total catch
branch); for an object or array, per `oThrows`. -/
def throwsPred (raw : JSValue) : Bool :=
  match raw with
  | jstr s =>
    let clean := jsTrim s
    let cand := match fenceMatch clean with
      | some g => g
      | none => clean
    (match jsonParse cand with
     | some parsed => vThrows parsed
     | none => false)
  | jobj _ => oThrows raw
  | jarr _ _ => oThrows raw
  | _ => true

/-- The invariant every plain-object record produced by
`validateAndEnhanceData` satisfies, for the request url `url` and
normalization time `now`: distinct keys; a title and summary that are
strings with nonempty trimmed form; array `keyPoints` and `keywords`; a
`highlights` array without expando properties all of whose elements are
enhanced; a truthy `readingTime`; a `sourceUrl` that is truthy or the
request url; a `createdAt` that is truthy or the normalization time. -/
def RecordInv (l : List (String × JSValue)) (url now : String) : Prop :=
  (keysOf l).Nodup ∧
  goodStrB ((plookup l "title").getD jundef) = true ∧
  goodStrB ((plookup l "summary").getD jundef) = true ∧
  isArrB ((plookup l "keyPoints").getD jundef) = true ∧
  isArrB ((plookup l "keywords").getD jundef) = true ∧
  (∃ es, plookup l "highlights" = some (jarr es []) ∧ ∀ h ∈ es, hlGoodB h = true) ∧
  truthy ((plookup l "readingTime").getD jundef) = true ∧
  (truthy ((plookup l "sourceUrl").getD jundef) = true ∨
    plookup l "sourceUrl" = some (jstr url)) ∧
  (truthy ((plookup l "createdAt").getD jundef) = true ∨
    plookup l "createdAt" = some (jstr now))

/-- Accumulation loop of the `processDataStream` path (useSummarizer.ts
lines 650-677): every delivered text part is appended to the accumulator,
counted, and forwarded to `onChunk`.  Returns the accumulated string, the
`onChunk` call list and the chunk count. -/
def pdsGo (full : String) (emits : List String) (count : Nat) :
    List String → String × List String × Nat
  | [] => (full, emits, count)
  | c :: t => pdsGo (full ++ c) (emits ++ [c]) (count + 1) t

/-- The `processDataStream` loop started on an empty accumulator. -/
def pdsLoop (cs : List String) : String × List String × Nat := pdsGo "" [] 0 cs

/-- Accumulation loop of the async-iterator path (useSummarizer.ts lines
687-701): a yielded value is consumed only when it is truthy and a string
(`if (chunk && typeof chunk === 'string')`), otherwise skipped. -/
def aiterGo (full : String) (emits : List String) (count : Nat) :
    List JSValue → String × List String × Nat
  | [] => (full, emits, count)
  | c :: t =>
    match c with
    | jstr s =>
      if s = "" then aiterGo full emits count t
      else aiterGo (full ++ s) (emits ++ [s]) (count + 1) t
    | _ => aiterGo full emits count t

/-- The async-iterator loop started on an empty accumulator. -/
def aiterLoop (cs : List JSValue) : String × List String × Nat := aiterGo "" [] 0 cs

/-- Whether a character is one of the line terminators not matched by an
unflagged `.` in a JavaScript regular expression. -/
def isLineTerm (c : Char) : Bool :=
  c = '\n' || c = '\r' || c = '\u2028' || c = '\u2029'

/-- Greedy chunking of a character run into pieces of at most 50,
fuel-driven (the caller passes the run length). -/
def chunk50 : Nat → List Char → List (List Char)
  | 0, _ => []
  | _ + 1, [] => []
  | fuel + 1, l => l.take 50 :: chunk50 fuel (l.drop 50)

/-- Model of `fullResponse.match(/.{1,50}/g)`: the maximal runs of
non-line-terminator characters, each split greedily into pieces of at most
50 characters; an empty match list is the regex returning `null`. -/
def regexChunks (s : String) : List String :=
  (((splitRuns isLineTerm s.data).filter (fun r => !r.isEmpty)).flatMap
    (fun r => chunk50 r.length r)).map String.mk

/-- The `onChunk` emissions of the static-content fallback (useSummarizer.ts
lines 718-734): content longer than 100 characters is emitted as the regex
chunks (whole content if the regex matched nothing), anything else as one
chunk. -/
def staticEmit (full : String) : List String :=
  if 100 < full.length then
    match regexChunks full with
    | [] => [full]
    | cs => cs
  else [full]

/-- Integer rendering with sign, for `jsonStringify`. -/
def intStr (n : Int) : String :=
  if n < 0 then "-" ++ decStr n.natAbs else decStr n.natAbs

/-- Escape of one character inside a JSON string literal. -/
def escChar (c : Char) : List Char :=
  if c = '"' then ['\\', '"']
  else if c = '\\' then ['\\', '\\']
  else if c = '\n' then ['\\', 'n']
  else if c = '\r' then ['\\', 'r']
  else if c = '\t' then ['\\', 't']
  else if c = '\x08' then ['\\', 'b']
  else if c = '\x0c' then ['\\', 'f']
  else if c.toNat < 0x20 then
    ['\\', 'u', '0', '0', Nat.digitChar (c.toNat / 16), Nat.digitChar (c.toNat % 16)]
  else [c]

/-- JSON string literal for a string value. -/
def strLit (s : String) : String :=
  String.mk ('"' :: s.data.flatMap escChar ++ ['"'])

mutual
/-- Model of `JSON.stringify`.  An `undefined` inside an array renders as
`null` and an `undefined`-valued property is skipped, as in JavaScript; a
non-integral number is rendered as a fraction, an approximation that no
claim exercises (the code only stringifies whole response objects). -/
def jsonStringify : JSValue → String
  | jundef => "null"
  | jnull => "null"
  | jbool b => if b then "true" else "false"
  | jnum q => if q.den = 1 then intStr q.num else intStr q.num ++ "/" ++ decStr q.den
  | jstr s => strLit s
  | jarr es _ => "[" ++ stringifyElems es ++ "]"
  | jobj l => "\x7b" ++ stringifyProps l ++ "\x7d"

/-- Array elements of `jsonStringify`, comma separated. -/
def stringifyElems : List JSValue → String
  | [] => ""
  | [x] => jsonStringify x
  | x :: t => jsonStringify x ++ "," ++ stringifyElems t

/-- Object members of `jsonStringify`: `undefined`-valued members are
skipped. -/
def stringifyProps : List (String × JSValue) → String
  | [] => ""
  | (k, x) :: t =>
    match x with
    | jundef => stringifyProps t
    | _ =>
      let rest := stringifyProps t
      strLit k ++ ":" ++ jsonStringify x ++ (if rest = "" then "" else "," ++ rest)
end

/-- Shape of a resolved `stream()` response, as the priority-ordered
capability probe of `analyzePageStream` sees it: whether `processDataStream`
exists and the text parts it delivers before succeeding or throwing
(`pdsErr`), whether the async-iterator protocol exists and the values it
yields before finishing or throwing (`aiterErr`), and the value itself for
the `typeof` test and the static-content fallback. -/
structure StreamResp where
  pdsAvail : Bool
  pdsChunks : List String
  pdsErr : Bool
  aiterAvail : Bool
  aiterChunks : List JSValue
  aiterErr : Bool
  selfValue : JSValue

/-- The protocol probe and drain of `analyzePageStream` (useSummarizer.ts
lines 643-746) on an object response: try `processDataStream`, then the
async iterator (keeping anything a failed earlier attempt accumulated),
then overwrite with the stringified static content, emitting its split
chunks.  Returns the final accumulated string, the `onChunk` call list,
whether a streaming protocol completed, and the chunk count. -/
def streamConsume (r : StreamResp) : String × List String × Bool × Nat :=
  let s1 := if r.pdsAvail then pdsLoop r.pdsChunks else ("", [], 0)
  let p1 := r.pdsAvail && !r.pdsErr
  let s2 := if !p1 && r.aiterAvail then aiterGo s1.1 s1.2.1 s1.2.2 r.aiterChunks else s1
  let p2 := p1 || (!p1 && r.aiterAvail && !r.aiterErr)
  if p2 then (s2.1, s2.2.1, true, s2.2.2)
  else
    let full :=
      match r.selfValue with
      | jstr s => s
      | v => jsonStringify v
    (full, s2.2.1 ++ staticEmit full, false, s2.2.2)

/-- Model of `storage.getHistory` (storage.ts lines 8-19): the backing
store value is `none` when `localStorage` has no entry; a falsy (empty)
entry, an entry that fails to parse (the catch branch), and a parsed value
that is not an array all yield the empty list. -/
def getHistory (stored : Option String) : List JSValue :=
  match stored with
  | none => []
  | some s =>
    if s = "" then []
    else
      match jsonParse s with
      | some (jarr es _) => es
      | _ => []

/-- Strict equality `===` restricted to the comparisons the history code
performs: primitive values compare by value; two object references are
modelled as distinct (the session never stores the same reference twice). -/
def seqPrim : JSValue → JSValue → Bool
  | jundef, jundef => true
  | jnull, jnull => true
  | jbool a, jbool b => a == b
  | jnum a, jnum b => a == b
  | jstr a, jstr b => a == b
  | _, _ => false

/-- The history envelope built around a normalized record (useSummarizer.ts
lines 765-772); `idStr` stands for `Date.now().toString()`. -/
def historyItem (idStr url now : String) (d : JSValue) : JSValue :=
  jobj [("id", jstr idStr), ("url", jstr url), ("title", getF d "title"),
        ("summary", getF d "summary"), ("createdAt", jstr now), ("data", d)]

/-- Model of `storage.saveToHistory` (storage.ts lines 22-44): replace the
first entry with the same url, else prepend, then truncate to 50. -/
def saveToHistory (h : List JSValue) (item : JSValue) : List JSValue :=
  match h.findIdx? (fun e => seqPrim (getF e "url") (getF item "url")) with
  | some i => (h.set i item).take 50
  | none => (item :: h).take 50

/-- The React state of the summarizer session that the claims observe. -/
structure SessionState where
  error : Option String
  currentData : Option JSValue
  history : List JSValue
  streamingContent : String
  isStreaming : Bool

/-- Error classification of the catch branch of `analyzePage`
(useSummarizer.ts lines 559-574): a message containing `fetch` or `timeout`
is mapped to a canned user-facing message, otherwise the message itself is
shown. -/
def classifyError (msg : String) : String :=
  if decide (("fetch".data : List Char) <:+: msg.data) then "无法连接到服务器，请检查网络连接"
  else if decide (("timeout".data : List Char) <:+: msg.data) then "请求超时，请稍后重试"
  else msg

/-- Model of `analyzePage` (useSummarizer.ts lines 494-580).  `gen` is the
outcome of the agent `generate` call; `idStr` and `now` stand for the
timestamps.  Returns the new state, the returned record, and how many
agent requests were issued. -/
def analyzePage (url : String) (gen : Except String JSValue) (idStr now : String)
    (st : SessionState) : SessionState × Option JSValue × Nat :=
  if jsTrim url = "" then ({st with error := some "请输入有效的URL"}, none, 0)
  else
    let st1 : SessionState := {st with error := none, streamingContent := ""}
    match gen with
    | .error msg => ({st1 with error := some (classifyError msg)}, none, 1)
    | .ok result =>
      match parseApiResponse result url now with
      | .error msg => ({st1 with error := some (classifyError msg)}, none, 1)
      | .ok d =>
        let h' := saveToHistory st1.history (historyItem idStr url now d)
        ({st1 with history := h', currentData := some d}, some d, 1)

/-- Model of `analyzePageStream` (useSummarizer.ts lines 583-789).
`streamCall` is the outcome of the agent `stream()` call; a throw there, a
non-object response, or a failing parse of the accumulated text falls back
to `analyzePage` with the same url (a full re-issue).  The last component
collects every string passed to `onChunk`. -/
def analyzePageStream (url : String) (streamCall : Except String StreamResp)
    (gen : Except String JSValue) (idStr now : String) (st : SessionState) :
    SessionState × Option JSValue × Nat × List String :=
  if jsTrim url = "" then ({st with error := some "请输入有效的URL"}, none, 0, [])
  else
    let st1 : SessionState := {st with error := none, isStreaming := true, streamingContent := ""}
    match streamCall with
    | .error _ =>
      let fb := analyzePage url gen idStr now {st1 with isStreaming := false}
      ({fb.1 with isStreaming := false}, fb.2.1, fb.2.2 + 1, [])
    | .ok r =>
      if objLikeB r.selfValue then
        let c := streamConsume r
        let displayed :=
          if c.2.2.1 then c.1
          else if 100 < c.1.length then "[伪流式] " ++ String.join (staticEmit c.1)
          else "[静态响应] " ++ c.1
        match parseApiResponse (jstr c.1) url now with
        | .error _ =>
          let fb := analyzePage url gen idStr now
            {st1 with isStreaming := false, streamingContent := displayed}
          ({fb.1 with isStreaming := false}, fb.2.1, fb.2.2 + 1, c.2.1)
        | .ok d =>
          let st2 : SessionState :=
            {st1 with streamingContent := displayed, currentData := some d}
          let h' := saveToHistory st2.history (historyItem idStr url now d)
          ({st2 with history := h', isStreaming := false}, some d, 1, c.2.1)
      else
        let fb := analyzePage url gen idStr now {st1 with isStreaming := false}
        ({fb.1 with isStreaming := false}, fb.2.1, fb.2.2 + 1, [])

/-- The eight recognized field names of the normalizer. -/
def recKeys : List String :=
  ["title", "summary", "keyPoints", "keywords", "highlights",
   "readingTime", "sourceUrl", "createdAt"]

theorem keysOf_nil : keysOf [] = [] := rfl

theorem keysOf_cons (k1 : String) (v1 : JSValue) (t : List (String × JSValue)) :
    keysOf ((k1, v1) :: t) = k1 :: keysOf t := rfl

theorem plookup_objSet_self (l : List (String × JSValue)) (k : String) (v : JSValue) :
    plookup (objSet l k v) k = some v := by
  induction l with
  | nil => simp [objSet, plookup]
  | cons p t ih =>
    obtain ⟨k', v'⟩ := p
    by_cases h : k' = k
    · simp [objSet, h, plookup]
    · simp [objSet, h, plookup, ih]

theorem plookup_objSet_ne (l : List (String × JSValue)) (k k' : String) (v : JSValue)
    (h : k' ≠ k) : plookup (objSet l k v) k' = plookup l k' := by
  have hne : ¬(k = k') := fun hh => h hh.symm
  induction l with
  | nil => simp [objSet, plookup, hne]
  | cons p t ih =>
    obtain ⟨k1, v1⟩ := p
    by_cases h1 : k1 = k
    · subst h1
      simp [objSet, plookup, hne]
    · simp [objSet, h1, plookup, ih]

theorem objSet_self (l : List (String × JSValue)) (k : String) (v : JSValue)
    (h : plookup l k = some v) : objSet l k v = l := by
  induction l with
  | nil => simp [plookup] at h
  | cons p t ih =>
    obtain ⟨k1, v1⟩ := p
    by_cases h1 : k1 = k
    · subst h1
      simp [plookup] at h
      simp [objSet, h]
    · simp [plookup, h1] at h
      simp [objSet, h1, ih h]

theorem plookup_none_of_not_mem (l : List (String × JSValue)) (k : String)
    (h : k ∉ keysOf l) : plookup l k = none := by
  induction l with
  | nil => rfl
  | cons p t ih =>
    obtain ⟨k1, v1⟩ := p
    rw [keysOf_cons] at h
    simp only [List.mem_cons] at h
    push_neg at h
    have h1 : ¬(k1 = k) := fun hh => h.1 hh.symm
    simp [plookup, h1, ih h.2]

theorem mem_keysOf_objSet (l : List (String × JSValue)) (k a : String) (v : JSValue)
    (h : a ∈ keysOf (objSet l k v)) : a ∈ keysOf l ∨ a = k := by
  induction l with
  | nil =>
    simp only [objSet, keysOf_cons, keysOf_nil, List.mem_singleton] at h
    exact Or.inr h
  | cons p t ih =>
    obtain ⟨k1, v1⟩ := p
    by_cases h1 : k1 = k
    · subst h1
      simp [objSet, keysOf_cons, List.mem_cons] at h
      exact Or.inl (by simp only [keysOf_cons, List.mem_cons]; exact h)
    · simp only [objSet, if_neg h1, keysOf_cons, List.mem_cons] at h
      rcases h with h | h
      · exact Or.inl (by simp [keysOf_cons, h])
      · rcases ih h with hh | hh
        · exact Or.inl (by simp [keysOf_cons, hh])
        · exact Or.inr hh

theorem keysOf_objSet_nodup (l : List (String × JSValue)) (k : String) (v : JSValue)
    (h : (keysOf l).Nodup) : (keysOf (objSet l k v)).Nodup := by
  induction l with
  | nil => simp [objSet, keysOf_cons, keysOf_nil]
  | cons p t ih =>
    obtain ⟨k1, v1⟩ := p
    rw [keysOf_cons] at h
    rw [List.nodup_cons] at h
    by_cases h1 : k1 = k
    · subst h1
      simp [objSet, keysOf_cons]
      exact ⟨fun hh => h.1 hh, h.2⟩
    · simp only [objSet, if_neg h1, keysOf_cons]
      refine List.nodup_cons.mpr ⟨?_, ih h.2⟩
      intro hmem
      rcases mem_keysOf_objSet t k k1 v hmem with hh | hh
      · exact h.1 hh
      · exact h1 hh

theorem plookup_append (l1 l2 : List (String × JSValue)) (k : String) :
    plookup (l1 ++ l2) k =
      match plookup l1 k with
      | some v => some v
      | none => plookup l2 k := by
  induction l1 with
  | nil => simp [plookup]
  | cons p t ih =>
    obtain ⟨k1, v1⟩ := p
    by_cases h1 : k1 = k
    · simp [plookup, h1]
    · simp [plookup, h1, ih]

theorem plookup_assign (upds : List (String × JSValue)) (h : (keysOf upds).Nodup)
    (base : List (String × JSValue)) (k : String) :
    plookup (assign base upds) k =
      match plookup upds k with
      | some v => some v
      | none => plookup base k := by
  induction upds generalizing base with
  | nil => simp [assign, plookup]
  | cons p t ih =>
    obtain ⟨k1, v1⟩ := p
    rw [keysOf_cons, List.nodup_cons] at h
    have step : assign base ((k1, v1) :: t) = assign (objSet base k1 v1) t := rfl
    rw [step, ih h.2]
    by_cases hk : k1 = k
    · subst hk
      have hnone : plookup t k1 = none := plookup_none_of_not_mem t k1 h.1
      simp [plookup, hnone, plookup_objSet_self]
    · simp [plookup, hk, plookup_objSet_ne base k1 k v1 (fun hh => hk hh.symm)]

theorem keysOf_assign_nodup (upds base : List (String × JSValue))
    (h : (keysOf base).Nodup) : (keysOf (assign base upds)).Nodup := by
  induction upds generalizing base with
  | nil => simpa [assign] using h
  | cons p t ih =>
    exact ih (objSet base p.1 p.2) (keysOf_objSet_nodup base p.1 p.2 h)

theorem getF_jobj (l : List (String × JSValue)) (k : String) :
    getF (jobj l) k = (plookup l k).getD jundef := rfl

theorem getFieldE_eq (v : JSValue) (k : String) (hv : objLikeB v = true) :
    getFieldE v k = .ok (getF v k) := by
  cases v <;> simp [objLikeB] at hv <;> rfl

theorem setFieldE_eq (v : JSValue) (k : String) (x : JSValue) (hv : objLikeB v = true) :
    setFieldE v k x = .ok (setV v k x) := by
  cases v <;> simp [objLikeB] at hv <;> rfl

theorem objLikeB_setV (v : JSValue) (k : String) (x : JSValue) :
    objLikeB (setV v k x) = objLikeB v := by
  cases v <;> rfl

theorem getF_setV_ne (v : JSValue) (k k' : String) (x : JSValue) (h : k' ≠ k) :
    getF (setV v k x) k' = getF v k' := by
  cases v with
  | jobj l => simp [setV, getF, plookup_objSet_ne l k k' x h]
  | jarr es l =>
    by_cases hl : k' = "length"
    · simp [setV, getF, hl]
    · simp [setV, getF, hl, plookup_objSet_ne l k k' x h]
  | _ => rfl

theorem getF_setV_self (v : JSValue) (k : String) (x : JSValue)
    (hv : objLikeB v = true) (hk : k ≠ "length") : getF (setV v k x) k = x := by
  cases v with
  | jobj l => simp [setV, getF, plookup_objSet_self]
  | jarr es l => simp [setV, getF, hk, plookup_objSet_self]
  | _ => simp [objLikeB] at hv

theorem jsTrim_empty : jsTrim "" = "" := rfl

theorem vStepStr_eq (key dflt : String) (v : JSValue) (hv : objLikeB v = true) :
    vStepStr key dflt v =
      if badTS (getF v key) then .error "TypeError: trim is not a function"
      else if goodStrB (getF v key) then .ok v
      else .ok (setV v key (jstr dflt)) := by
  unfold vStepStr
  rw [getFieldE_eq v key hv]
  cases hx : getF v key with
  | jundef =>
    simp [Bind.bind, Except.bind, truthy, badTS, goodStrB, isStrB,
      setFieldE_eq v key _ hv]
  | jnull =>
    simp [Bind.bind, Except.bind, truthy, badTS, goodStrB, isStrB,
      setFieldE_eq v key _ hv]
  | jbool b =>
    cases b <;>
      simp [Bind.bind, Except.bind, truthy, badTS, goodStrB, isStrB, trimCallE,
        setFieldE_eq v key _ hv]
  | jnum q =>
    by_cases hq : q = 0 <;>
      simp [Bind.bind, Except.bind, truthy, badTS, goodStrB, isStrB, trimCallE,
        setFieldE_eq v key _ hv, hq, beq_iff_eq]
  | jstr s =>
    by_cases hs : s = ""
    · subst hs
      simp [Bind.bind, Except.bind, truthy, badTS, goodStrB, isStrB,
        setFieldE_eq v key _ hv, jsTrim_empty]
    · by_cases ht : jsTrim s = "" <;>
        simp [Bind.bind, Except.bind, truthy, badTS, goodStrB, isStrB, trimCallE,
          setFieldE_eq v key _ hv, hs, ht, beq_iff_eq]
  | jarr es l =>
    simp [Bind.bind, Except.bind, truthy, badTS, goodStrB, isStrB, trimCallE,
      setFieldE_eq v key _ hv]
  | jobj l =>
    simp [Bind.bind, Except.bind, truthy, badTS, goodStrB, isStrB, trimCallE,
      setFieldE_eq v key _ hv]

theorem vStepArr_eq (key : String) (v : JSValue) (hv : objLikeB v = true) :
    vStepArr key v =
      .ok (if isArrB (getF v key) then v else setV v key (jarr [] [])) := by
  unfold vStepArr
  rw [getFieldE_eq v key hv]
  by_cases hx : isArrB (getF v key) <;>
    simp [Bind.bind, Except.bind, hx, setFieldE_eq v key _ hv]

theorem vStepDefault_eq (key : String) (dv : JSValue) (v : JSValue)
    (hv : objLikeB v = true) :
    vStepDefault key dv v =
      .ok (if truthy (getF v key) then v else setV v key dv) := by
  unfold vStepDefault
  rw [getFieldE_eq v key hv]
  by_cases hx : truthy (getF v key) <;>
    simp [Bind.bind, Except.bind, hx, setFieldE_eq v key _ hv]

theorem vStepRT_eq (v : JSValue) (hv : objLikeB v = true) :
    vStepRT v =
      if truthy (getF v "readingTime") then .ok v
      else
        match getF v "summary" with
        | jstr s => .ok (setV v "readingTime" (jstr (estimateReadingTime s)))
        | _ => .error "TypeError: split is not a function" := by
  unfold vStepRT
  rw [getFieldE_eq v "readingTime" hv]
  by_cases hx : truthy (getF v "readingTime")
  · simp [Bind.bind, Except.bind, hx]
  · rw [if_neg hx]
    simp only [Bind.bind, Except.bind]
    rw [getFieldE_eq v "summary" hv]
    cases hs : getF v "summary" <;>
      simp [Bind.bind, Except.bind, hx, setFieldE_eq v "readingTime" _ hv]

theorem vStepHl_eq (v : JSValue) (hv : objLikeB v = true) :
    vStepHl v =
      match getF v "highlights" with
      | jarr es _ =>
        (match hlMapAll 0 es with
         | .ok es2 => .ok (setV v "highlights" (jarr es2 []))
         | .error e => .error e)
      | _ => .error "TypeError: map is not a function" := by
  unfold vStepHl
  rw [getFieldE_eq v "highlights" hv]
  cases hx : getF v "highlights" with
  | jarr es l =>
    cases hm : hlMapAll 0 es <;>
      simp [Bind.bind, Except.bind, hm, setFieldE_eq v "highlights" _ hv]
  | _ => simp [Bind.bind, Except.bind]

theorem digitChar_toNat : ∀ m, m < 10 → (Nat.digitChar m).toNat = 48 + m := by decide

theorem decVal_decStrAux (fuel : Nat) : ∀ n, n < fuel → decVal (decStrAux fuel n) = n := by
  induction fuel with
  | zero => intro n h; omega
  | succ f ih =>
    intro n h
    by_cases h10 : n < 10
    · simp [decStrAux, h10, decVal, digitChar_toNat n h10]
    · have hn0 : 0 < n := by omega
      have hdiv : n / 10 < n := Nat.div_lt_self hn0 (by norm_num)
      have hf : n / 10 < f := by omega
      rw [decStrAux, if_neg h10]
      unfold decVal
      rw [List.foldl_append]
      have hmod : n % 10 < 10 := Nat.mod_lt n (by norm_num)
      simp only [List.foldl]
      rw [show List.foldl (fun a c => a * 10 + (c.toNat - 48)) 0 (decStrAux f (n / 10)) =
        decVal (decStrAux f (n / 10)) from rfl, ih (n / 10) hf,
        digitChar_toNat (n % 10) hmod]
      omega

theorem decStr_inj (m n : Nat) (h : decStr m = decStr n) : m = n := by
  have hd : decStrAux (m + 1) m = decStrAux (n + 1) n := congrArg String.data h
  have hm := decVal_decStrAux (m + 1) m (by omega)
  have hn := decVal_decStrAux (n + 1) n (by omega)
  rw [← hm, ← hn, hd]

theorem posId_inj (i j : Nat) (h : ("highlight-" ++ decStr i) = ("highlight-" ++ decStr j)) :
    i = j := by
  have hd := congrArg String.data h
  rw [String.data_append, String.data_append] at hd
  have := List.append_cancel_left hd
  exact decStr_inj i j (by
    have h1 : decStr i = String.mk (decStr i).data := rfl
    have h2 : decStr j = String.mk (decStr j).data := rfl
    rw [h1, h2, this])

theorem append_decStr_ne (pre : String) (hpre : pre.data ≠ []) (i : Nat) :
    (pre ++ decStr i) ≠ "" := by
  intro hh
  have hd := congrArg String.data hh
  rw [String.data_append] at hd
  simp only [List.append_eq_nil] at hd
  exact hpre hd.1

theorem posId_truthy (i : Nat) : truthy (jstr ("highlight-" ++ decStr i)) = true := by
  simp only [truthy, Bool.not_eq_true']
  rw [beq_eq_false_iff_ne]
  exact append_decStr_ne "highlight-" (by decide) i

theorem hlMapOne_ok (i : Nat) (h : JSValue) (hne : h ≠ jnull) (hnu : h ≠ jundef) :
    hlMapOne i h = .ok (jobj (objSet (objSet (objSpreadList h) "id"
      (if truthy (getF h "id") then getF h "id"
       else jstr ("highlight-" ++ decStr i))) "type"
      (if truthy (getF h "type") then getF h "type" else jstr "important"))) := by
  cases h <;> simp_all [hlMapOne, getFieldE, Bind.bind, Except.bind]

theorem hlMapOne_null (i : Nat) :
    hlMapOne i jnull = .error "TypeError: cannot read properties of null" := rfl

theorem hlMapOne_undef (i : Nat) :
    hlMapOne i jundef = .error "TypeError: cannot read properties of undefined" := rfl

theorem hlMapAll_isOk (i : Nat) (es : List JSValue) :
    (hlMapAll i es).isOk = !hlBadList es := by
  induction es generalizing i with
  | nil => rfl
  | cons e t ih =>
    by_cases hb : e = jnull ∨ e = jundef
    · rcases hb with hb | hb <;> subst hb <;>
        simp [hlMapAll, hlMapOne_null, hlMapOne_undef, hlBadList, Bind.bind,
          Except.bind, Except.isOk, Except.toBool]
    · push_neg at hb
      rw [hlMapAll, hlMapOne_ok i e hb.1 hb.2]
      have hbl : hlBadList (e :: t) = hlBadList t := by
        cases e <;> simp_all [hlBadList]
      rw [hbl, ← ih (i + 1)]
      cases hm : hlMapAll (i + 1) t <;>
        simp [Bind.bind, Except.bind, Except.isOk, Except.toBool]

theorem hlMapAll_length (i : Nat) (es es2 : List JSValue)
    (h : hlMapAll i es = .ok es2) : es2.length = es.length := by
  induction es generalizing i es2 with
  | nil => simp [hlMapAll] at h; simp [← h]
  | cons e t ih =>
    rw [hlMapAll] at h
    cases ho : hlMapOne i e with
    | error msg => rw [ho] at h; simp [Bind.bind, Except.bind] at h
    | ok x =>
      rw [ho] at h
      cases hm : hlMapAll (i + 1) t with
      | error msg => rw [hm] at h; simp [Bind.bind, Except.bind] at h
      | ok r =>
        rw [hm] at h
        simp [Bind.bind, Except.bind] at h
        rw [← h]
        simp [ih (i + 1) r hm]

theorem getF_hlSets_id (sp : List (String × JSValue)) (X Y : JSValue) :
    getF (jobj (objSet (objSet sp "id" X) "type" Y)) "id" = X := by
  rw [getF_jobj, plookup_objSet_ne (objSet sp "id" X) "type" "id" Y (by decide),
    plookup_objSet_self]
  rfl

theorem getF_hlSets_type (sp : List (String × JSValue)) (X Y : JSValue) :
    getF (jobj (objSet (objSet sp "id" X) "type" Y)) "type" = Y := by
  rw [getF_jobj, plookup_objSet_self]
  rfl

theorem getF_hlSets_other (sp : List (String × JSValue)) (X Y : JSValue) (k : String)
    (h1 : k ≠ "id") (h2 : k ≠ "type") :
    getF (jobj (objSet (objSet sp "id" X) "type" Y)) k = (plookup sp k).getD jundef := by
  rw [getF_jobj, plookup_objSet_ne _ "type" k Y h2, plookup_objSet_ne _ "id" k X h1]

theorem hlGoodB_of_hlMapOne (i : Nat) (h x : JSValue) (hok : hlMapOne i h = .ok x) :
    hlGoodB x = true := by
  have hne : h ≠ jnull := by rintro rfl; rw [hlMapOne_null] at hok; exact absurd hok (by simp)
  have hnu : h ≠ jundef := by
    rintro rfl; rw [hlMapOne_undef] at hok; exact absurd hok (by simp)
  rw [hlMapOne_ok i h hne hnu] at hok
  injection hok with hx
  rw [← hx]
  have e1 := getF_hlSets_id (objSpreadList h)
    (if truthy (getF h "id") then getF h "id" else jstr ("highlight-" ++ decStr i))
    (if truthy (getF h "type") then getF h "type" else jstr "important")
  have e2 := getF_hlSets_type (objSpreadList h)
    (if truthy (getF h "id") then getF h "id" else jstr ("highlight-" ++ decStr i))
    (if truthy (getF h "type") then getF h "type" else jstr "important")
  rw [getF_jobj] at e1 e2
  simp only [hlGoodB]
  rw [e1, e2]
  by_cases hid : truthy (getF h "id") <;> by_cases hty : truthy (getF h "type") <;>
    simp [hid, hty, posId_truthy, show truthy (jstr "important") = true by decide]

theorem hlGoodB_of_hlMapAll (i : Nat) (es es2 : List JSValue)
    (h : hlMapAll i es = .ok es2) : ∀ x ∈ es2, hlGoodB x = true := by
  induction es generalizing i es2 with
  | nil =>
    simp [hlMapAll] at h
    intro y hy
    rw [h] at hy
    simp at hy
  | cons e t ih =>
    rw [hlMapAll] at h
    cases ho : hlMapOne i e with
    | error msg => rw [ho] at h; simp [Bind.bind, Except.bind] at h
    | ok x =>
      rw [ho] at h
      cases hm : hlMapAll (i + 1) t with
      | error msg => rw [hm] at h; simp [Bind.bind, Except.bind] at h
      | ok r =>
        rw [hm] at h
        simp [Bind.bind, Except.bind] at h
        rw [← h]
        intro y hy
        rcases List.mem_cons.mp hy with hy | hy
        · exact hy ▸ hlGoodB_of_hlMapOne i e x ho
        · exact ih (i + 1) r hm y hy

theorem hlMapOne_id (i : Nat) (h : JSValue) (hg : hlGoodB h = true) :
    hlMapOne i h = .ok h := by
  cases h with
  | jobj f =>
    simp only [hlGoodB, Bool.and_eq_true] at hg
    obtain ⟨hid, hty⟩ := hg
    obtain ⟨xv, hxv⟩ : ∃ xv, plookup f "id" = some xv := by
      cases hp : plookup f "id"
      · rw [hp] at hid; simp [truthy] at hid
      · exact ⟨_, rfl⟩
    obtain ⟨yv, hyv⟩ : ∃ yv, plookup f "type" = some yv := by
      cases hp : plookup f "type"
      · rw [hp] at hty; simp [truthy] at hty
      · exact ⟨_, rfl⟩
    rw [hlMapOne_ok i (jobj f) (by simp) (by simp)]
    have hgf1 : getF (jobj f) "id" = xv := by simp [getF, hxv]
    have hgf2 : getF (jobj f) "type" = yv := by simp [getF, hyv]
    rw [hgf1, hgf2]
    rw [hxv] at hid
    rw [hyv] at hty
    simp only [Option.getD] at hid hty
    rw [if_pos hid, if_pos hty]
    simp only [objSpreadList]
    rw [objSet_self f "id" xv hxv]
    rw [objSet_self f "type" yv hyv]
  | _ => simp [hlGoodB] at hg

theorem hlMapAll_id (i : Nat) (es : List JSValue)
    (hg : ∀ h ∈ es, hlGoodB h = true) : hlMapAll i es = .ok es := by
  induction es generalizing i with
  | nil => rfl
  | cons e t ih =>
    rw [hlMapAll, hlMapOne_id i e (hg e (by simp)),
      ih (i + 1) (fun h hh => hg h (by simp [hh]))]
    rfl

theorem getF_of_hlMapOne_id (i : Nat) (h x : JSValue) (hok : hlMapOne i h = .ok x)
    (hid : truthy (getF h "id") = false) :
    getF x "id" = jstr ("highlight-" ++ decStr i) := by
  have hne : h ≠ jnull := by rintro rfl; rw [hlMapOne_null] at hok; exact absurd hok (by simp)
  have hnu : h ≠ jundef := by
    rintro rfl; rw [hlMapOne_undef] at hok; exact absurd hok (by simp)
  rw [hlMapOne_ok i h hne hnu] at hok
  injection hok with hx
  rw [← hx, getF_hlSets_id]
  rw [if_neg (by simp [hid])]

theorem hlMapAll_ids (i : Nat) (es es2 : List JSValue)
    (hok : hlMapAll i es = .ok es2)
    (hid : ∀ h ∈ es, truthy (getF h "id") = false) :
    es2.map (fun x => getF x "id") =
      (List.range' i es.length).map (fun j => jstr ("highlight-" ++ decStr j)) := by
  induction es generalizing i es2 with
  | nil =>
    simp [hlMapAll] at hok
    subst hok
    simp
  | cons e t ih =>
    rw [hlMapAll] at hok
    cases ho : hlMapOne i e with
    | error msg => rw [ho] at hok; simp [Bind.bind, Except.bind] at hok
    | ok x =>
      rw [ho] at hok
      cases hm : hlMapAll (i + 1) t with
      | error msg => rw [hm] at hok; simp [Bind.bind, Except.bind] at hok
      | ok r =>
        rw [hm] at hok
        simp [Bind.bind, Except.bind] at hok
        rw [← hok]
        rw [show (e :: t).length = t.length + 1 from rfl, List.range'_succ i t.length 1]
        simp only [List.map_cons]
        rw [getF_of_hlMapOne_id i e x ho (hid e (by simp)),
          ih (i + 1) r hm (fun h hh => hid h (by simp [hh]))]

theorem ite_ok (P : Prop) [Decidable P] (x y : JSValue) :
    (if P then (Except.ok x : Except String JSValue) else Except.ok y) =
      Except.ok (if P then x else y) := by split <;> rfl

theorem isArrB_setV (v : JSValue) (k : String) (x : JSValue) :
    isArrB (setV v k x) = isArrB v := by cases v <;> rfl

theorem condSet_facts (u : JSValue) (key : String) (val : JSValue) (b : Bool)
    (hu : objLikeB u = true) (hk : key ≠ "length") :
    objLikeB (if b = true then u else setV u key val) = true ∧
    isArrB (if b = true then u else setV u key val) = isArrB u ∧
    (∀ k, k ≠ key → getF (if b = true then u else setV u key val) k = getF u k) ∧
    getF (if b = true then u else setV u key val) key =
      (if b = true then getF u key else val) ∧
    (∀ l0, u = jobj l0 → ∃ l1, (if b = true then u else setV u key val) = jobj l1 ∧
      ((keysOf l0).Nodup → (keysOf l1).Nodup)) := by
  cases b
  · simp only [Bool.false_eq_true, if_false]
    refine ⟨?_, ?_, ?_, ?_, ?_⟩
    · rw [objLikeB_setV]; exact hu
    · exact isArrB_setV u key val
    · intro k hkk; exact getF_setV_ne u key k val hkk
    · exact getF_setV_self u key val hu hk
    · intro l0 hl0
      subst hl0
      exact ⟨objSet l0 key val, rfl, keysOf_objSet_nodup l0 key val⟩
  · simp only [if_pos rfl]
    exact ⟨hu, rfl, fun k _ => rfl, rfl, fun l0 hl0 => ⟨l0, hl0, id⟩⟩

theorem goodStrB_defaultTitle : goodStrB (jstr defaultTitle) = true := by decide

theorem goodStrB_defaultSummaryV : goodStrB (jstr defaultSummaryV) = true := by decide

theorem estimateReadingTime_ne (t : String) : estimateReadingTime t ≠ "" := by
  unfold estimateReadingTime
  intro hh
  have hd := congrArg String.data hh
  rw [String.data_append] at hd
  simp only [List.append_eq_nil] at hd
  exact absurd hd.2 (by decide)

theorem truthy_estimateReadingTime (t : String) :
    truthy (jstr (estimateReadingTime t)) = true := by
  simp only [truthy, Bool.not_eq_true']
  rw [beq_eq_false_iff_ne]
  exact estimateReadingTime_ne t

theorem goodStr_exists (x : JSValue) (h : goodStrB x = true) :
    ∃ s, x = jstr s ∧ jsTrim s ≠ "" := by
  cases x <;> simp [goodStrB] at h
  exact ⟨_, rfl, by simpa using h⟩

theorem validate_prim (v : JSValue) (url now : String) (hv : objLikeB v = false) :
    (validateAndEnhanceData v url now).isOk = false := by
  cases v <;> simp [validateAndEnhanceData, vStepStr, getFieldE, getF, truthy,
    setFieldE, Bind.bind, Except.bind, Except.isOk, Except.toBool] <;>
    simp [objLikeB] at hv

theorem validate_main (v : JSValue) (url now : String) (hv : objLikeB v = true) :
    ((validateAndEnhanceData v url now).isOk = !vThrows v) ∧
    (vThrows v = false → ∃ w, validateAndEnhanceData v url now = .ok w ∧
      objLikeB w = true ∧ isArrB w = isArrB v ∧
      (∀ k, k ∉ recKeys → getF w k = getF v k) ∧
      goodStrB (getF w "title") = true ∧
      goodStrB (getF w "summary") = true ∧
      isArrB (getF w "keyPoints") = true ∧
      isArrB (getF w "keywords") = true ∧
      (∃ es2, getF w "highlights" = jarr es2 [] ∧ (∀ x ∈ es2, hlGoodB x = true) ∧
        (∀ es ps, getF v "highlights" = jarr es ps → hlMapAll 0 es = .ok es2) ∧
        (isArrB (getF v "highlights") = false → es2 = [])) ∧
      truthy (getF w "readingTime") = true ∧
      (truthy (getF w "sourceUrl") = true ∨ getF w "sourceUrl" = jstr url) ∧
      (truthy (getF w "createdAt") = true ∨ getF w "createdAt" = jstr now) ∧
      (∀ l0, v = jobj l0 → ∃ l1, w = jobj l1 ∧
        ((keysOf l0).Nodup → (keysOf l1).Nodup))) := by
  have hvt : vThrows v = (badTS (getF v "title") || badTS (getF v "summary") ||
      (match getF v "highlights" with
       | jarr es _ => hlBadList es
       | _ => false)) := by
    cases v <;> first | rfl | simp [objLikeB] at hv
  unfold validateAndEnhanceData
  rw [vStepStr_eq "title" defaultTitle v hv]
  by_cases ht : badTS (getF v "title") = true
  · rw [if_pos ht]
    refine ⟨?_, ?_⟩
    · simp [Bind.bind, Except.bind, Except.isOk, Except.toBool, hvt, ht]
    · intro hth
      rw [hvt] at hth
      simp [ht] at hth
  · rw [if_neg ht, ite_ok]
    obtain ⟨o1, a1, p1, g1, j1⟩ :=
      condSet_facts v "title" (jstr defaultTitle) (goodStrB (getF v "title")) hv (by decide)
    set v1 := if goodStrB (getF v "title") = true then v
      else setV v "title" (jstr defaultTitle) with hv1def
    have t1 : goodStrB (getF v1 "title") = true := by
      rw [g1]
      by_cases hb : goodStrB (getF v "title") = true
      · simpa [hb] using hb
      · simp [hb, goodStrB_defaultTitle]
    simp only [Bind.bind, Except.bind]
    rw [vStepStr_eq "summary" defaultSummaryV v1 o1]
    have hsv : getF v1 "summary" = getF v "summary" := p1 "summary" (by decide)
    by_cases hs : badTS (getF v1 "summary") = true
    · rw [if_pos hs]
      have hs2 : badTS (getF v "summary") = true := by rw [← hsv]; exact hs
      refine ⟨?_, ?_⟩
      · simp [Bind.bind, Except.bind, Except.isOk, Except.toBool, hvt, hs2]
      · intro hth
        rw [hvt] at hth
        simp [hs2] at hth
    · rw [if_neg hs, ite_ok]
      have hs0 : badTS (getF v "summary") = false := by
        rw [← hsv]; exact Bool.eq_false_iff.mpr hs
      obtain ⟨o2, a2, p2, g2, j2⟩ :=
        condSet_facts v1 "summary" (jstr defaultSummaryV)
          (goodStrB (getF v1 "summary")) o1 (by decide)
      set v2 := if goodStrB (getF v1 "summary") = true then v1
        else setV v1 "summary" (jstr defaultSummaryV) with hv2def
      have t2 : goodStrB (getF v2 "summary") = true := by
        rw [g2]
        by_cases hb : goodStrB (getF v1 "summary") = true
        · simpa [hb] using hb
        · simp [hb, goodStrB_defaultSummaryV]
      have t1' : goodStrB (getF v2 "title") = true := by
        rw [p2 "title" (by decide)]; exact t1
      simp only [Bind.bind, Except.bind]
      rw [vStepArr_eq "keyPoints" v2 o2]
      obtain ⟨o3, a3, p3, g3, j3⟩ :=
        condSet_facts v2 "keyPoints" (jarr [] []) (isArrB (getF v2 "keyPoints")) o2
          (by decide)
      set v3 := if isArrB (getF v2 "keyPoints") = true then v2
        else setV v2 "keyPoints" (jarr [] []) with hv3def
      have k3 : isArrB (getF v3 "keyPoints") = true := by
        rw [g3]
        by_cases hb : isArrB (getF v2 "keyPoints") = true
        · simpa [hb] using hb
        · rw [if_neg hb]; rfl
      simp only [Bind.bind, Except.bind]
      rw [vStepArr_eq "keywords" v3 o3]
      obtain ⟨o4, a4, p4, g4, j4⟩ :=
        condSet_facts v3 "keywords" (jarr [] []) (isArrB (getF v3 "keywords")) o3
          (by decide)
      set v4 := if isArrB (getF v3 "keywords") = true then v3
        else setV v3 "keywords" (jarr [] []) with hv4def
      have k4 : isArrB (getF v4 "keywords") = true := by
        rw [g4]
        by_cases hb : isArrB (getF v3 "keywords") = true
        · simpa [hb] using hb
        · rw [if_neg hb]; rfl
      simp only [Bind.bind, Except.bind]
      rw [vStepArr_eq "highlights" v4 o4]
      obtain ⟨o5, a5, p5, g5, j5⟩ :=
        condSet_facts v4 "highlights" (jarr [] []) (isArrB (getF v4 "highlights")) o4
          (by decide)
      set v5 := if isArrB (getF v4 "highlights") = true then v4
        else setV v4 "highlights" (jarr [] []) with hv5def
      simp only [Bind.bind, Except.bind]
      rw [vStepRT_eq v5 o5]
      have hsum5 : getF v5 "summary" = getF v2 "summary" := by
        rw [p5 "summary" (by decide), p4 "summary" (by decide), p3 "summary" (by decide)]
      obtain ⟨s2, hs2, hs2t⟩ := goodStr_exists _ t2
      rw [hsum5, hs2]
      rw [show (match jstr s2 with
        | jstr s => Except.ok (setV v5 "readingTime" (jstr (estimateReadingTime s)))
        | _ => (Except.error "TypeError: split is not a function" :
            Except String JSValue)) =
        Except.ok (setV v5 "readingTime" (jstr (estimateReadingTime s2))) from rfl]
      rw [ite_ok]
      obtain ⟨o6, a6, p6, g6, j6⟩ :=
        condSet_facts v5 "readingTime" (jstr (estimateReadingTime s2))
          (truthy (getF v5 "readingTime")) o5 (by decide)
      set v6 := if truthy (getF v5 "readingTime") = true then v5
        else setV v5 "readingTime" (jstr (estimateReadingTime s2)) with hv6def
      have t6 : truthy (getF v6 "readingTime") = true := by
        rw [g6]
        by_cases hb : truthy (getF v5 "readingTime") = true
        · simpa [hb] using hb
        · simp [hb, truthy_estimateReadingTime]
      simp only [Bind.bind, Except.bind]
      rw [vStepDefault_eq "sourceUrl" (jstr url) v6 o6]
      obtain ⟨o7, a7, p7, g7, j7⟩ :=
        condSet_facts v6 "sourceUrl" (jstr url) (truthy (getF v6 "sourceUrl")) o6
          (by decide)
      set v7 := if truthy (getF v6 "sourceUrl") = true then v6
        else setV v6 "sourceUrl" (jstr url) with hv7def
      have t7 : truthy (getF v7 "sourceUrl") = true ∨ getF v7 "sourceUrl" = jstr url := by
        rw [g7]
        by_cases hb : truthy (getF v6 "sourceUrl") = true
        · exact Or.inl (by simpa [hb] using hb)
        · exact Or.inr (by simp [hb])
      simp only [Bind.bind, Except.bind]
      rw [vStepDefault_eq "createdAt" (jstr now) v7 o7]
      obtain ⟨o8, a8, p8, g8, j8⟩ :=
        condSet_facts v7 "createdAt" (jstr now) (truthy (getF v7 "createdAt")) o7
          (by decide)
      set v8 := if truthy (getF v7 "createdAt") = true then v7
        else setV v7 "createdAt" (jstr now) with hv8def
      have t8 : truthy (getF v8 "createdAt") = true ∨ getF v8 "createdAt" = jstr now := by
        rw [g8]
        by_cases hb : truthy (getF v7 "createdAt") = true
        · exact Or.inl (by simpa [hb] using hb)
        · exact Or.inr (by simp [hb])
      simp only [Bind.bind, Except.bind]
      rw [vStepHl_eq v8 o8]
      have hvhl : getF v4 "highlights" = getF v "highlights" := by
        rw [p4 "highlights" (by decide), p3 "highlights" (by decide),
          p2 "highlights" (by decide), p1 "highlights" (by decide)]
      have hl8 : getF v8 "highlights" = getF v5 "highlights" := by
        rw [p8 "highlights" (by decide), p7 "highlights" (by decide),
          p6 "highlights" (by decide)]
      by_cases hiav : isArrB (getF v "highlights") = true
      · obtain ⟨es, ps, hes⟩ : ∃ es ps, getF v "highlights" = jarr es ps := by
          cases hx : getF v "highlights" <;> rw [hx] at hiav <;>
            simp [isArrB] at hiav
          exact ⟨_, _, rfl⟩
        have hl5v : getF v5 "highlights" = jarr es ps := by
          rw [g5, hvhl, hes]
          rfl
        simp only [hl8, hl5v]
        by_cases hbad : hlBadList es = true
        · have hko : (hlMapAll 0 es).isOk = false := by
            rw [hlMapAll_isOk, hbad]; rfl
          cases hma : hlMapAll 0 es with
          | ok r => rw [hma] at hko; simp [Except.isOk, Except.toBool] at hko
          | error e =>
            refine ⟨?_, ?_⟩
            · simp [Except.isOk, Except.toBool, hvt, hes, hbad]
            · intro hth
              rw [hvt, hes] at hth
              simp [hbad] at hth
        · have hko : (hlMapAll 0 es).isOk = true := by
            rw [hlMapAll_isOk, Bool.eq_false_iff.mpr hbad]
            rfl
          cases hma : hlMapAll 0 es with
          | error e => rw [hma] at hko; simp [Except.isOk, Except.toBool] at hko
          | ok es2 =>
            have hnth : vThrows v = false := by
              rw [hvt, hes]
              have ht0 : badTS (getF v "title") = false := Bool.eq_false_iff.mpr ht
              simp [ht0, hs0, hbad]
            refine ⟨?_, ?_⟩
            · simp [Except.isOk, Except.toBool, hnth]
            · intro _
              refine ⟨setV v8 "highlights" (jarr es2 []), rfl, ?_, ?_, ?_, ?_, ?_,
                ?_, ?_, ?_, ?_, ?_, ?_, ?_⟩
              · rw [objLikeB_setV]; exact o8
              · rw [isArrB_setV, a8, a7, a6, a5, a4, a3, a2, a1]
              · intro k hk
                simp only [recKeys, List.mem_cons, List.not_mem_nil, or_false] at hk
                push_neg at hk
                obtain ⟨n1, n2, n3, n4, n5, n6, n7, n8⟩ := hk
                rw [getF_setV_ne v8 "highlights" k _ n5, p8 k n8, p7 k n7, p6 k n6,
                  p5 k n5, p4 k n4, p3 k n3, p2 k n2, p1 k n1]
              · rw [getF_setV_ne v8 "highlights" "title" _ (by decide),
                  p8 "title" (by decide), p7 "title" (by decide), p6 "title" (by decide),
                  p5 "title" (by decide), p4 "title" (by decide), p3 "title" (by decide)]
                exact t1'
              · rw [getF_setV_ne v8 "highlights" "summary" _ (by decide),
                  p8 "summary" (by decide), p7 "summary" (by decide),
                  p6 "summary" (by decide), hsum5]
                exact t2
              · rw [getF_setV_ne v8 "highlights" "keyPoints" _ (by decide),
                  p8 "keyPoints" (by decide), p7 "keyPoints" (by decide),
                  p6 "keyPoints" (by decide), p5 "keyPoints" (by decide),
                  p4 "keyPoints" (by decide)]
                exact k3
              · rw [getF_setV_ne v8 "highlights" "keywords" _ (by decide),
                  p8 "keywords" (by decide), p7 "keywords" (by decide),
                  p6 "keywords" (by decide), p5 "keywords" (by decide)]
                exact k4
              · refine ⟨es2, ?_, hlGoodB_of_hlMapAll 0 es es2 hma, ?_, ?_⟩
                · exact getF_setV_self v8 "highlights" _ o8 (by decide)
                · intro es' ps' hes'
                  rw [hes] at hes'
                  injection hes' with h1 h2
                  rw [← h1]
                  exact hma
                · intro hcon
                  rw [hiav] at hcon
                  exact absurd hcon (by simp)
              · rw [getF_setV_ne v8 "highlights" "readingTime" _ (by decide),
                  p8 "readingTime" (by decide), p7 "readingTime" (by decide)]
                exact t6
              · rw [getF_setV_ne v8 "highlights" "sourceUrl" _ (by decide),
                  p8 "sourceUrl" (by decide)]
                exact t7
              · rw [getF_setV_ne v8 "highlights" "createdAt" _ (by decide)]
                exact t8
              · intro l0 hl0
                obtain ⟨la, hla, hnda⟩ := j1 l0 hl0
                obtain ⟨lb, hlb, hndb⟩ := j2 la hla
                obtain ⟨lc, hlc, hndc⟩ := j3 lb hlb
                obtain ⟨ld, hld, hndd⟩ := j4 lc hlc
                obtain ⟨le, hle, hnde⟩ := j5 ld hld
                obtain ⟨lf, hlf, hndf⟩ := j6 le hle
                obtain ⟨lg, hlg, hndg⟩ := j7 lf hlf
                obtain ⟨lh, hlh, hndh⟩ := j8 lg hlg
                refine ⟨objSet lh "highlights" (jarr es2 []), ?_, ?_⟩
                · rw [hlh]; rfl
                · intro hnd
                  exact keysOf_objSet_nodup lh "highlights" _
                    (hndh (hndg (hndf (hnde (hndd (hndc (hndb (hnda hnd))))))))
      · have hl5v : getF v5 "highlights" = jarr [] [] := by
          rw [g5, hvhl, if_neg hiav]
        simp only [hl8, hl5v, show hlMapAll 0 [] = Except.ok [] from rfl]
        have hnth : vThrows v = false := by
          rw [hvt]
          have ht0 : badTS (getF v "title") = false := Bool.eq_false_iff.mpr ht
          cases hx : getF v "highlights" <;> rw [hx] at hiav <;>
            first
            | exact absurd rfl hiav
            | simp [ht0, hs0]
        refine ⟨?_, ?_⟩
        · simp [Except.isOk, Except.toBool, hnth]
        · intro _
          refine ⟨setV v8 "highlights" (jarr [] []), rfl, ?_, ?_, ?_, ?_, ?_,
            ?_, ?_, ?_, ?_, ?_, ?_, ?_⟩
          · rw [objLikeB_setV]; exact o8
          · rw [isArrB_setV, a8, a7, a6, a5, a4, a3, a2, a1]
          · intro k hk
            simp only [recKeys, List.mem_cons, List.not_mem_nil, or_false] at hk
            push_neg at hk
            obtain ⟨n1, n2, n3, n4, n5, n6, n7, n8⟩ := hk
            rw [getF_setV_ne v8 "highlights" k _ n5, p8 k n8, p7 k n7, p6 k n6,
              p5 k n5, p4 k n4, p3 k n3, p2 k n2, p1 k n1]
          · rw [getF_setV_ne v8 "highlights" "title" _ (by decide),
              p8 "title" (by decide), p7 "title" (by decide), p6 "title" (by decide),
              p5 "title" (by decide), p4 "title" (by decide), p3 "title" (by decide)]
            exact t1'
          · rw [getF_setV_ne v8 "highlights" "summary" _ (by decide),
              p8 "summary" (by decide), p7 "summary" (by decide),
              p6 "summary" (by decide), hsum5]
            exact t2
          · rw [getF_setV_ne v8 "highlights" "keyPoints" _ (by decide),
              p8 "keyPoints" (by decide), p7 "keyPoints" (by decide),
              p6 "keyPoints" (by decide), p5 "keyPoints" (by decide),
              p4 "keyPoints" (by decide)]
            exact k3
          · rw [getF_setV_ne v8 "highlights" "keywords" _ (by decide),
              p8 "keywords" (by decide), p7 "keywords" (by decide),
              p6 "keywords" (by decide), p5 "keywords" (by decide)]
            exact k4
          · refine ⟨[], ?_, by simp, ?_, fun _ => rfl⟩
            · exact getF_setV_self v8 "highlights" _ o8 (by decide)
            · intro es' ps' hes'
              rw [hes'] at hiav
              simp [isArrB] at hiav
          · rw [getF_setV_ne v8 "highlights" "readingTime" _ (by decide),
              p8 "readingTime" (by decide), p7 "readingTime" (by decide)]
            exact t6
          · rw [getF_setV_ne v8 "highlights" "sourceUrl" _ (by decide),
              p8 "sourceUrl" (by decide)]
            exact t7
          · rw [getF_setV_ne v8 "highlights" "createdAt" _ (by decide)]
            exact t8
          · intro l0 hl0
            obtain ⟨la, hla, hnda⟩ := j1 l0 hl0
            obtain ⟨lb, hlb, hndb⟩ := j2 la hla
            obtain ⟨lc, hlc, hndc⟩ := j3 lb hlb
            obtain ⟨ld, hld, hndd⟩ := j4 lc hlc
            obtain ⟨le, hle, hnde⟩ := j5 ld hld
            obtain ⟨lf, hlf, hndf⟩ := j6 le hle
            obtain ⟨lg, hlg, hndg⟩ := j7 lf hlf
            obtain ⟨lh, hlh, hndh⟩ := j8 lg hlg
            refine ⟨objSet lh "highlights" (jarr [] []), ?_, ?_⟩
            · rw [hlh]; rfl
            · intro hnd
              exact keysOf_objSet_nodup lh "highlights" _
                (hndh (hndg (hndf (hnde (hndd (hndc (hndb (hnda hnd))))))))

theorem badTS_of_goodStr (x : JSValue) (h : goodStrB x = true) : badTS x = false := by
  cases x <;> simp [goodStrB, badTS, isStrB] at h ⊢

theorem mem_keysOf_of_plookup (l : List (String × JSValue)) (k : String) (v : JSValue)
    (h : plookup l k = some v) : k ∈ keysOf l := by
  induction l with
  | nil => simp [plookup] at h
  | cons p t ih =>
    obtain ⟨k1, v1⟩ := p
    rw [keysOf_cons]
    by_cases h1 : k1 = k
    · simp [h1]
    · simp [plookup, h1] at h
      simp [ih h]

theorem keysOf_recognizedBase (r : JSValue) (url now : String) :
    keysOf (recognizedBase r url now) = recKeys := rfl

theorem recognizedBase_nodup (r : JSValue) (url now : String) :
    (keysOf (recognizedBase r url now)).Nodup := by
  rw [keysOf_recognizedBase]
  decide

theorem objBranchList_nodup (r : JSValue) (url now : String) :
    (keysOf (objBranchList r url now)).Nodup :=
  keysOf_assign_nodup (objSpreadList r) (recognizedBase r url now)
    (recognizedBase_nodup r url now)

theorem plookup_objBranchList (r : JSValue) (url now : String) (k : String)
    (hnd : (keysOf (objSpreadList r)).Nodup) :
    plookup (objBranchList r url now) k =
      match plookup (objSpreadList r) k with
      | some v => some v
      | none => plookup (recognizedBase r url now) k :=
  plookup_assign (objSpreadList r) hnd (recognizedBase r url now) k

theorem spreadGet_none_getF (r : JSValue) (k : String) (hr : objLikeB r = true)
    (hk : k ≠ "length") (h : spreadGet r k = none) : getF r k = jundef := by
  cases r with
  | jobj l =>
    simp only [spreadGet, objSpreadList] at h
    simp [getF, h]
  | jarr es props =>
    simp only [spreadGet, objSpreadList] at h
    rw [plookup_append] at h
    simp only [getF, hk, if_neg hk]
    cases hp : plookup ((es.enum.map (fun p => (decStr p.1, p.2)))) k with
    | some x => rw [hp] at h; simp at h
    | none =>
      rw [hp] at h
      simp only at h
      rw [h]
      rfl
  | _ => simp [objLikeB] at hr

theorem vThrows_catchRecord (s url now : String) :
    vThrows (catchRecord s url now) = false := by
  simp [vThrows, catchRecord, getF, plookup, badTS, isStrB, hlBadList, Bool.and_eq_false_iff]

theorem validate_isOk_all (v : JSValue) (url now : String) :
    (validateAndEnhanceData v url now).isOk = !vThrows v := by
  by_cases hv : objLikeB v = true
  · exact (validate_main v url now hv).1
  · rw [validate_prim v url now (Bool.eq_false_iff.mpr hv)]
    cases v <;> first | rfl | simp [objLikeB] at hv

theorem vThrows_objBranch (r : JSValue) (url now : String) (hr : objLikeB r = true)
    (hnd : (keysOf (objSpreadList r)).Nodup) :
    vThrows (objBranch r url now) = oThrows r := by
  have hL : ∀ k, getF (objBranch r url now) k =
      (match plookup (objSpreadList r) k with
       | some x => x
       | none => (plookup (recognizedBase r url now) k).getD jundef) := by
    intro k
    show (plookup (objBranchList r url now) k).getD jundef = _
    rw [plookup_objBranchList r url now k hnd]
    cases hx : plookup (objSpreadList r) k <;> simp
  have hvt : vThrows (objBranch r url now) =
      (badTS (getF (objBranch r url now) "title") ||
       badTS (getF (objBranch r url now) "summary") ||
       (match getF (objBranch r url now) "highlights" with
        | jarr es _ => hlBadList es
        | _ => false)) := rfl
  rw [hvt, hL "title", hL "summary", hL "highlights"]
  have hbT : (plookup (recognizedBase r url now) "title").getD jundef =
      (if truthy (getF r "title") then getF r "title" else jstr defaultTitle) := rfl
  have hbS : (plookup (recognizedBase r url now) "summary").getD jundef =
      (if truthy (getF r "summary") then getF r "summary"
       else if truthy (getF r "content") then getF r "content"
       else jstr defaultSummaryO) := rfl
  have hbH : (plookup (recognizedBase r url now) "highlights").getD jundef =
      (if isArrB (getF r "highlights") then getF r "highlights" else jarr [] []) := rfl
  have hTpart : (match plookup (objSpreadList r) "title" with
       | some x => x
       | none => (plookup (recognizedBase r url now) "title").getD jundef) =
      (match plookup (objSpreadList r) "title" with
       | some x => x
       | none => jstr defaultTitle) := by
    cases hT : plookup (objSpreadList r) "title" with
    | some x => rfl
    | none =>
      simp only [hbT]
      have hTf : getF r "title" = jundef :=
        spreadGet_none_getF r "title" hr (by decide) (by simp [spreadGet, hT])
      rw [hTf]
      rfl
  have hSpart : badTS (match plookup (objSpreadList r) "summary" with
       | some x => x
       | none => (plookup (recognizedBase r url now) "summary").getD jundef) =
      (match plookup (objSpreadList r) "summary" with
       | some x => badTS x
       | none => badTS (getF r "content")) := by
    cases hS : plookup (objSpreadList r) "summary" with
    | some x => rfl
    | none =>
      simp only [hbS]
      have hSf : getF r "summary" = jundef :=
        spreadGet_none_getF r "summary" hr (by decide) (by simp [spreadGet, hS])
      rw [hSf]
      rw [if_neg (by rw [show truthy jundef = false from rfl]; exact Bool.false_ne_true)]
      by_cases hc : truthy (getF r "content") = true
      · rw [if_pos hc]
      · rw [if_neg hc]
        have hc0 : truthy (getF r "content") = false := Bool.eq_false_iff.mpr hc
        simp [badTS, hc0, isStrB]
  have hHpart : (match (match plookup (objSpreadList r) "highlights" with
       | some x => x
       | none => (plookup (recognizedBase r url now) "highlights").getD jundef) with
       | jarr es _ => hlBadList es
       | _ => false) =
      (match plookup (objSpreadList r) "highlights" with
       | some (jarr es _) => hlBadList es
       | some _ => false
       | none => false) := by
    cases hH : plookup (objSpreadList r) "highlights" with
    | some x => cases x <;> rfl
    | none =>
      simp only [hbH]
      have hHf : getF r "highlights" = jundef :=
        spreadGet_none_getF r "highlights" hr (by decide) (by simp [spreadGet, hH])
      rw [hHf]
      rfl
  rw [hSpart, hHpart]
  have hoThrows : oThrows r =
      ((match plookup (objSpreadList r) "title" with
        | some x => badTS x
        | none => false) ||
       (match plookup (objSpreadList r) "summary" with
        | some x => badTS x
        | none => badTS (getF r "content")) ||
       (match plookup (objSpreadList r) "highlights" with
        | some (jarr es _) => hlBadList es
        | some _ => false
        | none => false)) := rfl
  rw [hoThrows]
  have hTpart2 : badTS (match plookup (objSpreadList r) "title" with
       | some x => x
       | none => (plookup (recognizedBase r url now) "title").getD jundef) =
      (match plookup (objSpreadList r) "title" with
       | some x => badTS x
       | none => false) := by
    rw [hTpart]
    cases hT : plookup (objSpreadList r) "title" with
    | some x => rfl
    | none => rfl
  rw [hTpart2]

theorem validate_noop (L : List (String × JSValue)) (url now : String)
    (h1 : goodStrB ((plookup L "title").getD jundef) = true)
    (h2 : goodStrB ((plookup L "summary").getD jundef) = true)
    (h3 : isArrB ((plookup L "keyPoints").getD jundef) = true)
    (h4 : isArrB ((plookup L "keywords").getD jundef) = true)
    (es : List JSValue) (h5p : plookup L "highlights" = some (jarr es []))
    (h5g : ∀ x ∈ es, hlGoodB x = true)
    (h6 : truthy ((plookup L "readingTime").getD jundef) = true)
    (h7 : truthy ((plookup L "sourceUrl").getD jundef) = true ∨
      plookup L "sourceUrl" = some (jstr url))
    (h8 : truthy ((plookup L "createdAt").getD jundef) = true) :
    validateAndEnhanceData (jobj L) url now = .ok (jobj L) := by
  have hobj : objLikeB (jobj L) = true := rfl
  have hbt : badTS (getF (jobj L) "title") = false := badTS_of_goodStr _ h1
  have hbs : badTS (getF (jobj L) "summary") = false := badTS_of_goodStr _ h2
  unfold validateAndEnhanceData
  rw [vStepStr_eq "title" defaultTitle (jobj L) hobj,
    if_neg (by rw [hbt]; exact Bool.false_ne_true),
    if_pos (show goodStrB (getF (jobj L) "title") = true from h1)]
  simp only [Bind.bind, Except.bind]
  rw [vStepStr_eq "summary" defaultSummaryV (jobj L) hobj,
    if_neg (by rw [hbs]; exact Bool.false_ne_true),
    if_pos (show goodStrB (getF (jobj L) "summary") = true from h2)]
  simp only [Bind.bind, Except.bind]
  rw [vStepArr_eq "keyPoints" (jobj L) hobj,
    if_pos (show isArrB (getF (jobj L) "keyPoints") = true from h3)]
  simp only [Bind.bind, Except.bind]
  rw [vStepArr_eq "keywords" (jobj L) hobj,
    if_pos (show isArrB (getF (jobj L) "keywords") = true from h4)]
  simp only [Bind.bind, Except.bind]
  have hhlv : getF (jobj L) "highlights" = jarr es [] := by
    show (plookup L "highlights").getD jundef = _
    rw [h5p]
    rfl
  rw [vStepArr_eq "highlights" (jobj L) hobj, if_pos (by rw [hhlv]; rfl)]
  simp only [Bind.bind, Except.bind]
  rw [vStepRT_eq (jobj L) hobj,
    if_pos (show truthy (getF (jobj L) "readingTime") = true from h6)]
  simp only [Bind.bind, Except.bind]
  have hsu : (if truthy (getF (jobj L) "sourceUrl") = true then jobj L
      else setV (jobj L) "sourceUrl" (jstr url)) = jobj L := by
    by_cases hb : truthy (getF (jobj L) "sourceUrl") = true
    · rw [if_pos hb]
    · rw [if_neg hb]
      rcases h7 with h7 | h7
      · exact absurd h7 hb
      · show jobj (objSet L "sourceUrl" (jstr url)) = jobj L
        rw [objSet_self L "sourceUrl" (jstr url) h7]
  rw [vStepDefault_eq "sourceUrl" (jstr url) (jobj L) hobj, hsu]
  simp only [Bind.bind, Except.bind]
  rw [vStepDefault_eq "createdAt" (jstr now) (jobj L) hobj,
    if_pos (show truthy (getF (jobj L) "createdAt") = true from h8)]
  simp only [Bind.bind, Except.bind]
  rw [vStepHl_eq (jobj L) hobj]
  simp only [hhlv, hlMapAll_id 0 es h5g]
  show Except.ok (setV (jobj L) "highlights" (jarr es [])) = Except.ok (jobj L)
  rw [show setV (jobj L) "highlights" (jarr es []) =
    jobj (objSet L "highlights" (jarr es [])) from rfl,
    objSet_self L "highlights" (jarr es []) h5p]

theorem getD_eq_some (o : Option JSValue) (x : JSValue) (hx : x ≠ jundef)
    (h : o.getD jundef = x) : o = some x := by
  cases o with
  | none => simp at h; exact absurd h.symm hx
  | some y => simp at h; rw [h]

theorem validate_RecordInv (l0 : List (String × JSValue)) (url now : String)
    (hnd : (keysOf l0).Nodup) (w : JSValue)
    (hok : validateAndEnhanceData (jobj l0) url now = .ok w) :
    ∃ l1, w = jobj l1 ∧ RecordInv l1 url now := by
  have hobj : objLikeB (jobj l0) = true := rfl
  have hth : vThrows (jobj l0) = false := by
    have hh := validate_isOk_all (jobj l0) url now
    rw [hok] at hh
    simp [Except.isOk, Except.toBool] at hh
    cases hb : vThrows (jobj l0)
    · rfl
    · rw [hb] at hh; simp at hh
  obtain ⟨w', hw', ho, ha, hex, ht, hs, hkp, hkw, ⟨es2, hh1, hh2, hh3, hh4⟩,
    hrt, hsu, hca, hjo⟩ := (validate_main (jobj l0) url now hobj).2 hth
  rw [hok] at hw'
  injection hw' with hww
  subst hww
  obtain ⟨l1, hl1, hnd1⟩ := hjo l0 rfl
  subst hl1
  refine ⟨l1, rfl, hnd1 hnd, ht, hs, hkp, hkw, ⟨es2, ?_, hh2⟩, hrt, ?_, ?_⟩
  · exact getD_eq_some _ _ (by simp) hh1
  · rcases hsu with hsu | hsu
    · exact Or.inl hsu
    · exact Or.inr (getD_eq_some _ _ (by simp) hsu)
  · rcases hca with hca | hca
    · exact Or.inl hca
    · exact Or.inr (getD_eq_some _ _ (by simp) hca)

theorem reparse_of_RecordInv (l : List (String × JSValue)) (url now2 : String)
    (hnd : (keysOf l).Nodup)
    (h1 : goodStrB ((plookup l "title").getD jundef) = true)
    (h2 : goodStrB ((plookup l "summary").getD jundef) = true)
    (h3 : isArrB ((plookup l "keyPoints").getD jundef) = true)
    (h4 : isArrB ((plookup l "keywords").getD jundef) = true)
    (es : List JSValue) (h5p : plookup l "highlights" = some (jarr es []))
    (h5g : ∀ x ∈ es, hlGoodB x = true)
    (h6 : truthy ((plookup l "readingTime").getD jundef) = true)
    (h7 : truthy ((plookup l "sourceUrl").getD jundef) = true ∨
      plookup l "sourceUrl" = some (jstr url))
    (h8 : truthy ((plookup l "createdAt").getD jundef) = true) :
    ∃ l2, parseApiResponse (jobj l) url now2 = .ok (jobj l2) ∧
      ∀ k, plookup l2 k = plookup l k := by
  have hsp : objSpreadList (jobj l) = l := rfl
  have hkeq : ∀ k, plookup (objBranchList (jobj l) url now2) k = plookup l k := by
    intro k
    rw [plookup_objBranchList (jobj l) url now2 k (by rw [hsp]; exact hnd), hsp]
    cases hp : plookup l k with
    | some v => simp
    | none =>
      simp only []
      cases hb : plookup (recognizedBase (jobj l) url now2) k with
      | none => rfl
      | some x =>
        exfalso
        have hmem := mem_keysOf_of_plookup _ k x hb
        rw [keysOf_recognizedBase] at hmem
        simp [recKeys] at hmem
        rcases hmem with rfl | rfl | rfl | rfl | rfl | rfl | rfl | rfl
        · rw [hp] at h1; simp [goodStrB] at h1
        · rw [hp] at h2; simp [goodStrB] at h2
        · rw [hp] at h3; simp [isArrB] at h3
        · rw [hp] at h4; simp [isArrB] at h4
        · rw [hp] at h5p; simp at h5p
        · rw [hp] at h6; simp [truthy] at h6
        · rcases h7 with h7 | h7
          · rw [hp] at h7; simp [truthy] at h7
          · rw [hp] at h7; simp at h7
        · rw [hp] at h8; simp [truthy] at h8
  refine ⟨objBranchList (jobj l) url now2, ?_, hkeq⟩
  show validateAndEnhanceData (jobj (objBranchList (jobj l) url now2)) url now2 = _
  exact validate_noop (objBranchList (jobj l) url now2) url now2
    (by rw [hkeq]; exact h1) (by rw [hkeq]; exact h2) (by rw [hkeq]; exact h3)
    (by rw [hkeq]; exact h4) es (by rw [hkeq]; exact h5p) h5g
    (by rw [hkeq]; exact h6)
    (by rcases h7 with h7 | h7
        · exact Or.inl (by rw [hkeq]; exact h7)
        · exact Or.inr (by rw [hkeq]; exact h7))
    (by rw [hkeq]; exact h8)

theorem parseObjItems_nodup (fuel : Nat) :
    ∀ l acc res rest, parseObjItems fuel l acc = some (res, rest) →
      (keysOf acc).Nodup → (keysOf res).Nodup := by
  induction fuel with
  | zero => intro l acc res rest h; simp [parseObjItems] at h
  | succ f ih =>
    intro l acc res rest h hnd
    rw [parseObjItems] at h
    split at h
    · rename_i x r heq
      simp only [Bind.bind, Option.bind] at h
      cases hps : parseStrA (r.length + 1) r with
      | none => rw [hps] at h; simp at h
      | some p =>
        rw [hps] at h
        obtain ⟨ks, r1⟩ := p
        simp only at h
        split at h
        · rename_i x2 r2 heq2
          cases hpj : parseJ f r2 with
          | none => rw [hpj] at h; simp at h
          | some q =>
            rw [hpj] at h
            obtain ⟨v, r3⟩ := q
            simp only at h
            split at h
            · rename_i x4 r4 heq4
              exact ih r4 (objSet acc (String.mk ks) v) res rest h
                (keysOf_objSet_nodup acc (String.mk ks) v hnd)
            · rename_i x4 r4 heq4
              injection h with h1
              injection h1 with h2 h3
              rw [← h2]
              exact keysOf_objSet_nodup acc (String.mk ks) v hnd
            · simp at h
        · simp at h
    · simp at h

theorem parseJ_obj_nodup (fuel : Nat) (l : List Char) (v : JSValue) (rest : List Char)
    (h : parseJ fuel l = some (v, rest)) :
    ∀ m, v = jobj m → (keysOf m).Nodup := by
  intro m hm
  subst hm
  cases fuel with
  | zero => simp [parseJ] at h
  | succ f =>
    rw [parseJ] at h
    split at h
    · simp at h
    · simp at h
    · simp at h
    · simp [Option.map_eq_some'] at h
    · split at h
      · simp at h
      · simp [Option.map_eq_some'] at h
    · split at h
      · simp only [Option.some.injEq, Prod.mk.injEq] at h
        obtain ⟨h1, -⟩ := h
        injection h1 with h2
        rw [← h2]
        exact List.nodup_nil
      · simp only [Option.map_eq_some'] at h
        obtain ⟨p, hp, hq⟩ := h
        obtain ⟨p1, p2⟩ := p
        simp only [Prod.mk.injEq] at hq
        obtain ⟨hq1, -⟩ := hq
        injection hq1 with hq2
        rw [← hq2]
        exact parseObjItems_nodup f _ [] p1 p2 hp (by simp [keysOf])
    · split at h
      · simp [Option.map_eq_some'] at h
      · simp at h
    · simp at h

theorem jsonParse_obj_nodup (s : String) (m : List (String × JSValue))
    (h : jsonParse s = some (jobj m)) : (keysOf m).Nodup := by
  unfold jsonParse at h
  cases hp : parseJ (2 * s.data.length + 2) s.data with
  | none => rw [hp] at h; simp at h
  | some q =>
    rw [hp] at h
    obtain ⟨v, rest⟩ := q
    simp only at h
    split at h
    · injection h with h1
      exact parseJ_obj_nodup _ s.data v rest hp m h1
    · simp at h

theorem joinAll_cons (c : String) (t : List String) :
    joinAll (c :: t) = c ++ joinAll t := rfl

theorem pdsGo_spec (cs : List String) :
    ∀ full emits count, pdsGo full emits count cs =
      (full ++ joinAll cs, emits ++ cs, count + cs.length) := by
  induction cs with
  | nil => intro full emits count; simp [pdsGo, joinAll]
  | cons c t ih =>
    intro full emits count
    rw [pdsGo, ih]
    simp [joinAll_cons, String.append_assoc]
    omega

theorem aiterGo_spec (cs : List String) (h : ∀ c ∈ cs, c ≠ "") :
    ∀ full emits count, aiterGo full emits count (cs.map jstr) =
      (full ++ joinAll cs, emits ++ cs, count + cs.length) := by
  induction cs with
  | nil => intro f e k; simp [aiterGo, joinAll]
  | cons c t ih =>
    intro f e k
    simp only [List.map_cons]
    rw [aiterGo, if_neg (h c (by simp)),
      ih (fun x hx => h x (by simp [hx]))]
    simp [joinAll_cons, String.append_assoc]
    omega

theorem chunk50_cons (fuel : Nat) (c : Char) (t : List Char) :
    chunk50 (fuel + 1) (c :: t) =
      (c :: t).take 50 :: chunk50 fuel ((c :: t).drop 50) := rfl

theorem chunk50_flatten (fuel : Nat) : ∀ l : List Char, l.length ≤ fuel →
    (chunk50 fuel l).flatten = l := by
  induction fuel with
  | zero =>
    intro l h
    cases l with
    | nil => rfl
    | cons c t => simp at h
  | succ f ih =>
    intro l h
    cases l with
    | nil => rfl
    | cons c t =>
      have hd : ((c :: t).drop 50).length ≤ f := by
        simp only [List.length_drop, List.length_cons] at h ⊢
        omega
      rw [chunk50_cons, List.flatten_cons, ih _ hd]
      exact List.take_append_drop 50 (c :: t)

theorem chunk50_ne_nil (fuel : Nat) (l : List Char) (h : l ≠ []) (hl : l.length ≤ fuel) :
    chunk50 fuel l ≠ [] := by
  cases fuel with
  | zero => cases l with
    | nil => exact absurd rfl h
    | cons c t => simp at hl
  | succ f =>
    cases l with
    | nil => exact absurd rfl h
    | cons c t => rw [chunk50_cons]; simp

theorem chunk50_length (fuel : Nat) : ∀ l : List Char, l ≠ [] → l.length ≤ fuel →
    (chunk50 fuel l).length = (l.length + 49) / 50 := by
  induction fuel with
  | zero =>
    intro l h hl
    cases l with
    | nil => exact absurd rfl h
    | cons c t => simp at hl
  | succ f ih =>
    intro l h hl
    cases l with
    | nil => exact absurd rfl h
    | cons c t =>
      rw [chunk50_cons]
      by_cases h50 : (c :: t).length ≤ 50
      · rw [List.drop_eq_nil_of_le h50,
          show chunk50 f [] = [] from (by cases f <;> rfl)]
        simp only [List.length_cons, List.length_nil] at h50 ⊢
        omega
      · have hne : (c :: t).drop 50 ≠ [] := by
          intro hc
          have hlc := congrArg List.length hc
          simp only [List.length_drop, List.length_cons, List.length_nil] at hlc h50
          omega
        have hfl : ((c :: t).drop 50).length ≤ f := by
          simp only [List.length_drop, List.length_cons] at hl ⊢
          omega
        rw [List.length_cons, ih _ hne hfl]
        simp only [List.length_drop, List.length_cons] at h50 ⊢
        omega

theorem splitRunsGo_nosep (p : Char → Bool) (l : List Char) (h : ∀ c ∈ l, p c = false) :
    ∀ cur, splitRunsGo p cur l = [cur.reverse ++ l] := by
  induction l with
  | nil => intro cur; simp [splitRunsGo]
  | cons c t ih =>
    intro cur
    rw [splitRunsGo, if_neg (by rw [h c (by simp)]; exact Bool.false_ne_true),
      ih (fun x hx => h x (by simp [hx])) (c :: cur)]
    simp

theorem joinAll_map_mk (ls : List (List Char)) :
    joinAll (ls.map String.mk) = String.mk ls.flatten := by
  induction ls with
  | nil => rfl
  | cons a t ih =>
    simp only [List.map_cons, joinAll_cons, ih, List.flatten_cons]
    rfl

/-- Claim C1: for every finite sequence of non-empty string chunks delivered
through the callback-driven `processDataStream` protocol or through the
async-iterable protocol, the accumulated string of `analyzePageStream`'s
stream drain equals the concatenation of the chunks, and `onChunk` is
invoked exactly once per chunk with exactly those chunk values in order
(the chunk counter agreeing with the count). -/
theorem c1_stream_accumulation (cs : List String) (h : ∀ c ∈ cs, c ≠ "") :
    streamConsume ⟨true, cs, false, false, [], false, jobj []⟩ =
      (joinAll cs, cs, true, cs.length) ∧
    streamConsume ⟨false, [], false, true, cs.map jstr, false, jobj []⟩ =
      (joinAll cs, cs, true, cs.length) := by
  constructor
  · show streamConsume _ = _
    unfold streamConsume pdsLoop
    rw [pdsGo_spec cs "" [] 0]
    simp
  · show streamConsume _ = _
    have ha := aiterGo_spec cs h "" [] 0
    simp only [List.nil_append, Nat.zero_add] at ha
    simp [streamConsume, ha]

/-- Witness for C1 at the specification's scenario chunks
`["foo", "bar", "baz"]`. -/
theorem c1_stream_accumulation_witness :
    streamConsume ⟨true, ["foo", "bar", "baz"], false, false, [], false, jobj []⟩ =
      ("foobarbaz", ["foo", "bar", "baz"], true, 3) ∧
    streamConsume ⟨false, [], false, true,
        [jstr "foo", jstr "bar", jstr "baz"], false, jobj []⟩ =
      ("foobarbaz", ["foo", "bar", "baz"], true, 3) := by
  have h := c1_stream_accumulation ["foo", "bar", "baz"] (by decide)
  exact ⟨h.1, h.2⟩

/-- Claim C9: `storage.getHistory` is total and always returns a list: a
missing store entry, an entry that fails to parse as JSON, and a parsed
value that is not an array all give the empty list; an array gives its
elements. -/
theorem c9_getHistory_total :
    getHistory none = [] ∧
    (∀ s, jsonParse s = none → getHistory (some s) = []) ∧
    (∀ s v, jsonParse s = some v → isArrB v = false → getHistory (some s) = []) ∧
    (∀ s es props, jsonParse s = some (jarr es props) → getHistory (some s) = es) := by
  refine ⟨rfl, ?_, ?_, ?_⟩
  · intro s hp
    by_cases hs : s = ""
    · simp [getHistory, hs]
    · simp [getHistory, hs, hp]
  · intro s v hp hv
    by_cases hs : s = ""
    · simp [getHistory, hs]
    · cases v <;> simp [getHistory, hs, hp] <;> simp [isArrB] at hv
  · intro s es props hp
    have hs : s ≠ "" := by
      intro hse
      rw [hse, show jsonParse "" = none from rfl] at hp
      exact Option.noConfusion hp
    simp [getHistory, hs, hp]

/-- Witness for C9: an absent entry and the unparseable entry `notjson`
both give the empty history. -/
theorem c9_getHistory_total_witness :
    getHistory none = [] ∧ getHistory (some "notjson") = [] ∧
    getHistory (some "true") = [] := by
  refine ⟨c9_getHistory_total.1, c9_getHistory_total.2.1 "notjson" rfl,
    c9_getHistory_total.2.2.1 "true" (jbool true) (by rfl) rfl⟩

/-- Claim C10: for every url whose trimmed form is empty, both `analyzePage`
and `analyzePageStream` return null, set the user-facing error message,
issue no agent request and emit no chunk, and leave every other part of the
session state (current result, history, streaming content) unchanged. -/
theorem c10_empty_url_guard (url : String) (h : jsTrim url = "")
    (gen : Except String JSValue) (streamCall : Except String StreamResp)
    (idStr now : String) (st : SessionState) :
    analyzePage url gen idStr now st =
      ({st with error := some "请输入有效的URL"}, none, 0) ∧
    analyzePageStream url streamCall gen idStr now st =
      ({st with error := some "请输入有效的URL"}, none, 0, []) := by
  constructor
  · unfold analyzePage
    rw [if_pos h]
  · unfold analyzePageStream
    rw [if_pos h]

/-- Witness for C10 at the whitespace-only url `"  "`. -/
theorem c10_empty_url_guard_witness :
    analyzePage "  " (.ok jnull) "1" "T" ⟨none, none, [], "", false⟩ =
      (⟨some "请输入有效的URL", none, [], "", false⟩, none, 0) ∧
    analyzePageStream "  " (.ok ⟨true, [], false, false, [], false, jobj []⟩)
        (.ok jnull) "1" "T" ⟨none, none, [], "", false⟩ =
      (⟨some "请输入有效的URL", none, [], "", false⟩, none, 0, []) :=
  c10_empty_url_guard "  " rfl (.ok jnull)
    (.ok ⟨true, [], false, false, [], false, jobj []⟩) "1" "T"
    ⟨none, none, [], "", false⟩

/-- Claim C3: the fenced string input yields a record with title `A`,
summary `B`, empty key points and keywords, and a reading time derived
from the summary `B` by the word-count over 200 words-per-minute
rounded-up rule (one minute), for any request url and normalization time. -/
theorem c3_fenced_json_scenario (url now : String) :
    parseApiResponse
        (jstr "\x60\x60\x60json\n\x7b\"title\":\"A\",\"summary\":\"B\"\x7d\n\x60\x60\x60")
        url now =
      .ok (jobj [("title", jstr "A"), ("summary", jstr "B"),
        ("keyPoints", jarr [] []), ("keywords", jarr [] []),
        ("highlights", jarr [] []),
        ("readingTime", jstr (estimateReadingTime "B")),
        ("sourceUrl", jstr url), ("createdAt", jstr now)]) ∧
    estimateReadingTime "B" = "1 分钟" := ⟨rfl, rfl⟩

/-- Claim C7 (amended): the static-content fallback splits only content
longer than 100 characters — anything else is emitted as one single chunk —
and on longer content whose rendered string contains no line-terminator
characters it emits exactly ceil(L/50) chunks whose concatenation
reconstructs the content; line terminators are dropped by the splitting
regex, so reconstruction can fail on content containing them. -/
theorem c7_static_fallback (s : String) :
    (s.length ≤ 100 → staticEmit s = [s]) ∧
    (100 < s.length → (∀ c ∈ s.data, isLineTerm c = false) →
      (staticEmit s).length = (s.length + 49) / 50 ∧
      joinAll (staticEmit s) = s) := by
  constructor
  · intro hle
    rw [staticEmit, if_neg (by omega)]
  · intro hgt hnt
    have hlen : s.length = s.data.length := rfl
    have hne : s.data ≠ [] := by
      intro hd
      rw [hlen, hd] at hgt
      simp at hgt
    have hsr : splitRuns isLineTerm s.data = [s.data] := by
      rw [splitRuns, splitRunsGo_nosep isLineTerm s.data hnt []]
      simp
    have hrc : regexChunks s = (chunk50 s.data.length s.data).map String.mk := by
      rw [regexChunks, hsr]
      have hf : ([s.data]).filter (fun r => !r.isEmpty) = [s.data] := by
        simp [List.filter_cons, hne]
      rw [hf]
      simp [List.flatMap]
    have hcne : (chunk50 s.data.length s.data).map String.mk ≠ [] := by
      intro hc
      simp only [List.map_eq_nil_iff] at hc
      exact chunk50_ne_nil s.data.length s.data hne le_rfl hc
    have hse : staticEmit s = (chunk50 s.data.length s.data).map String.mk := by
      rw [staticEmit, if_pos hgt, hrc]
      cases hcc : (chunk50 s.data.length s.data).map String.mk with
      | nil => exact absurd hcc hcne
      | cons a t => rfl
    constructor
    · rw [hse, List.length_map, chunk50_length s.data.length s.data hne le_rfl, hlen]
    · rw [hse, joinAll_map_mk, chunk50_flatten s.data.length s.data le_rfl]

/-- Witness for C7 at a 101-character terminator-free string and a short
string. -/
theorem c7_static_fallback_witness :
    (staticEmit (String.mk (List.replicate 101 'a'))).length = 3 ∧
    joinAll (staticEmit (String.mk (List.replicate 101 'a'))) =
      String.mk (List.replicate 101 'a') ∧
    staticEmit "short" = ["short"] := by
  have h := c7_static_fallback (String.mk (List.replicate 101 'a'))
  have h2 := (c7_static_fallback "short").1 (by decide)
  obtain ⟨hl, hj⟩ := h.2 (by decide) (by decide)
  exact ⟨hl.trans (by decide), hj, h2⟩

/-- Counterexample to C7 as stated: a 102-character content consisting of
50 `a`s, a newline and 51 `b`s is split, but the newline is dropped by the
`/.\x7b1,50\x7d/g` regex (an unflagged `.` does not match line terminators),
so the concatenation of the emitted chunks does not reconstruct the
content. -/
theorem c7_counterexample :
    100 < (String.mk (List.replicate 50 'a' ++ '\n' :: List.replicate 51 'b')).length ∧
    joinAll (staticEmit
        (String.mk (List.replicate 50 'a' ++ '\n' :: List.replicate 51 'b'))) ≠
      String.mk (List.replicate 50 'a' ++ '\n' :: List.replicate 51 'b') := by
  exact ⟨by decide, by decide⟩

/-- Claim C2 (amended): `parseApiResponse` fails exactly as `throwsPred`
describes: always for input that is neither a string nor a non-null object
(in particular for the number 42); for a string, exactly when the
fence-extracted candidate parses as JSON to a value on which the validation
step throws (so a string input can fail, e.g. one parsing to `null`); for
an object or array with distinct own keys, exactly when its own (or
resolved fallback) `title` or `summary` is a truthy non-string or its own
`highlights` array contains `null` or `undefined`. -/
theorem c2_throw_characterization (raw : JSValue) (url now : String)
    (hnd : (keysOf (objSpreadList raw)).Nodup) :
    (parseApiResponse raw url now).isOk = false ↔ throwsPred raw = true := by
  cases raw with
  | jstr s =>
    have hL : parseApiResponse (jstr s) url now =
        (match jsonParse (match fenceMatch (jsTrim s) with
          | some g => g
          | none => jsTrim s) with
        | some p => validateAndEnhanceData p url now
        | none => validateAndEnhanceData (catchRecord s url now) url now) := rfl
    have hR : throwsPred (jstr s) =
        (match jsonParse (match fenceMatch (jsTrim s) with
          | some g => g
          | none => jsTrim s) with
        | some p => vThrows p
        | none => false) := rfl
    cases hp : jsonParse (match fenceMatch (jsTrim s) with
        | some g => g
        | none => jsTrim s) with
    | some parsed =>
      rw [hL, hR, hp]
      show (validateAndEnhanceData parsed url now).isOk = false ↔ vThrows parsed = true
      rw [validate_isOk_all]
      cases hv : vThrows parsed <;> simp
    | none =>
      rw [hL, hR, hp]
      show (validateAndEnhanceData (catchRecord s url now) url now).isOk = false ↔
        false = true
      rw [validate_isOk_all, vThrows_catchRecord]
      simp
  | jobj l =>
    show (validateAndEnhanceData (objBranch (jobj l) url now) url now).isOk = false ↔
      oThrows (jobj l) = true
    rw [validate_isOk_all, vThrows_objBranch (jobj l) url now rfl hnd]
    cases ho : oThrows (jobj l) <;> simp
  | jarr es props =>
    show (validateAndEnhanceData (objBranch (jarr es props) url now) url now).isOk =
      false ↔ oThrows (jarr es props) = true
    rw [validate_isOk_all, vThrows_objBranch (jarr es props) url now rfl hnd]
    cases ho : oThrows (jarr es props) <;> simp
  | jundef => simp [parseApiResponse, throwsPred, Except.isOk, Except.toBool]
  | jnull => simp [parseApiResponse, throwsPred, Except.isOk, Except.toBool]
  | jbool b => simp [parseApiResponse, throwsPred, Except.isOk, Except.toBool]
  | jnum q => simp [parseApiResponse, throwsPred, Except.isOk, Except.toBool]

/-- Witness for C2 at the specification's scenario input 42: the number is
rejected. -/
theorem c2_throw_characterization_witness :
    (parseApiResponse (jnum 42) "u" "T").isOk = false :=
  (c2_throw_characterization (jnum 42) "u" "T" (by decide)).mpr rfl

/-- Counterexample to C2 as stated: the claim says no string input ever
causes a throw, but the string input `null` trims to a fence-free
candidate that JSON-parses to `null`, on which the validation step's
property read throws, so `parseApiResponse` fails on a string input. -/
theorem c2_counterexample :
    (parseApiResponse (jstr "null") "u" "T").isOk = false := rfl

/-- Claim C4 (amended): for every object input with distinct own keys, the
object branch resolves a key the source object does not carry to the
documented per-field fallback value, and copies every own field of the
source — recognized or not — with its raw value, because the spread is
applied after the resolved fields and therefore overrides them. -/
theorem c4_spread_last (r : JSValue) (url now : String)
    (hnd : (keysOf (objSpreadList r)).Nodup) :
    (∀ k v, plookup (objSpreadList r) k = some v →
      plookup (objBranchList r url now) k = some v) ∧
    (∀ k, plookup (objSpreadList r) k = none →
      plookup (objBranchList r url now) k = plookup (recognizedBase r url now) k) := by
  constructor
  · intro k v hk
    rw [plookup_objBranchList r url now k hnd, hk]
  · intro k hk
    rw [plookup_objBranchList r url now k hnd, hk]

/-- Witness for C4: in the object branch on `\x7bkeyPoints: "x", extra: 1\x7d`,
the source's own scalar `keyPoints` overrides the resolved single-element
wrap, the unrecognized `extra` is preserved, and the absent `title`
resolves to its fallback. -/
theorem c4_spread_last_witness :
    plookup (objBranchList (jobj [("keyPoints", jstr "x"), ("extra", jnum 1)]) "u" "T")
      "keyPoints" = some (jstr "x") ∧
    plookup (objBranchList (jobj [("keyPoints", jstr "x"), ("extra", jnum 1)]) "u" "T")
      "extra" = some (jnum 1) ∧
    plookup (objBranchList (jobj [("keyPoints", jstr "x"), ("extra", jnum 1)]) "u" "T")
      "title" =
      plookup (recognizedBase (jobj [("keyPoints", jstr "x"), ("extra", jnum 1)]) "u" "T")
        "title" := by
  have h := c4_spread_last (jobj [("keyPoints", jstr "x"), ("extra", jnum 1)]) "u" "T"
    (by decide)
  exact ⟨h.1 "keyPoints" (jstr "x") rfl, h.1 "extra" (jnum 1) rfl, h.2 "title" rfl⟩

/-- Counterexample to C4 as stated: on the object input
`\x7bkeyPoints: "x"\x7d` the documented fallback would wrap the truthy scalar
into a single-element sequence, but the trailing spread overrides the
resolved field with the raw scalar, which the validation step then replaces
by the empty array: the output `keyPoints` is `[]`, not `["x"]`. -/
theorem c4_counterexample :
    Except.map (fun w => getF w "keyPoints")
      (parseApiResponse (jobj [("keyPoints", jstr "x")]) "u" "T") =
      .ok (jarr [] []) := rfl

/-- Claim C5 (amended): for every non-throwing object-like value whose
`highlights` field is an array of length N, the validated record contains
exactly N highlights; and when no input highlight carries a truthy `id`,
the output ids (all assigned positionally) are pairwise distinct.  Input
ids are kept verbatim, so duplicate supplied ids survive into the output. -/
theorem c5_highlight_count_ids (v : JSValue) (url now : String) (hv : objLikeB v = true)
    (es : List JSValue) (ps : List (String × JSValue))
    (hhl : getF v "highlights" = jarr es ps)
    (hnt : vThrows v = false) :
    ∃ w es2, validateAndEnhanceData v url now = .ok w ∧
      getF w "highlights" = jarr es2 [] ∧ es2.length = es.length ∧
      ((∀ h ∈ es, truthy (getF h "id") = false) →
        (es2.map (fun x => getF x "id")).Nodup) := by
  obtain ⟨w, hw, ho, ha, hex, ht, hs, hkp, hkw, ⟨es2, hh1, hh2, hh3, hh4⟩,
    hrt, hsu, hca, hjo⟩ := (validate_main v url now hv).2 hnt
  have hma := hh3 es ps hhl
  refine ⟨w, es2, hw, hh1, hlMapAll_length 0 es es2 hma, ?_⟩
  intro hid
  rw [hlMapAll_ids 0 es es2 hma hid]
  refine List.Nodup.map ?_ (List.nodup_range' 0 es.length 1 Nat.one_pos)
  intro a b hab
  simp only at hab
  injection hab with hab2
  exact posId_inj a b hab2

/-- Witness for C5: two id-less highlights come out as two highlights with
distinct positional ids. -/
theorem c5_highlight_count_ids_witness :
    ∃ w es2, validateAndEnhanceData
        (jobj [("title", jstr "t"), ("summary", jstr "s"),
          ("highlights", jarr [jobj [("text", jstr "p")],
            jobj [("text", jstr "q")]] [])]) "u" "T" = .ok w ∧
      getF w "highlights" = jarr es2 [] ∧ es2.length = 2 ∧
      (es2.map (fun x => getF x "id")).Nodup := by
  obtain ⟨w, es2, h1, h2, h3, h4⟩ := c5_highlight_count_ids
    (jobj [("title", jstr "t"), ("summary", jstr "s"),
      ("highlights", jarr [jobj [("text", jstr "p")], jobj [("text", jstr "q")]] [])])
    "u" "T" rfl [jobj [("text", jstr "p")], jobj [("text", jstr "q")]] [] rfl rfl
  exact ⟨w, es2, h1, h2, h3, h4 (by decide)⟩

/-- Counterexample to C5 as stated: two highlights both supplying the id
`a` keep their ids verbatim, so the validated record's highlight ids are
not pairwise distinct. -/
theorem c5_counterexample :
    Except.map
      (fun w => match getF w "highlights" with
        | jarr es _ => es.map (fun x => getF x "id")
        | _ => [])
      (validateAndEnhanceData
        (jobj [("title", jstr "t"), ("summary", jstr "s"),
          ("highlights", jarr
            [jobj [("id", jstr "a"), ("type", jstr "x"), ("text", jstr "p")],
             jobj [("id", jstr "a"), ("type", jstr "x"), ("text", jstr "q")]] [])])
        "u" "T") = .ok [jstr "a", jstr "a"] := rfl

/-- Claim C6 (amended): the highlight-enhancement map never touches
`importance`: the output highlight's `importance` equals the input's own
`importance` (in particular it stays absent when absent); what the map
defaults is the legacy `type` field, to `important`, when the input's
`type` is falsy. -/
theorem c6_type_not_importance (i : Nat) (l : List (String × JSValue)) (x : JSValue)
    (hok : hlMapOne i (jobj l) = .ok x) :
    getF x "importance" = getF (jobj l) "importance" ∧
    (truthy (getF (jobj l) "type") = false → getF x "type" = jstr "important") := by
  rw [hlMapOne_ok i (jobj l) (by simp) (by simp)] at hok
  injection hok with hx
  rw [← hx]
  constructor
  · rw [getF_jobj, plookup_objSet_ne _ "type" "importance" _ (by decide),
      plookup_objSet_ne _ "id" "importance" _ (by decide)]
    rfl
  · intro hty
    rw [getF_jobj, plookup_objSet_self]
    simp [hty]

/-- Witness for C6: a highlight with neither `importance` nor `type` gets
`type` defaulted to `important` while `importance` stays the absent
`undefined`, not `medium`. -/
theorem c6_type_not_importance_witness :
    getF (jobj [("text", jstr "p"), ("id", jstr "highlight-0"),
      ("type", jstr "important")]) "importance" =
      getF (jobj [("text", jstr "p")]) "importance" ∧
    getF (jobj [("text", jstr "p"), ("id", jstr "highlight-0"),
      ("type", jstr "important")]) "type" = jstr "important" := by
  have h := c6_type_not_importance 0 [("text", jstr "p")]
    (jobj [("text", jstr "p"), ("id", jstr "highlight-0"), ("type", jstr "important")])
    rfl
  exact ⟨h.1, h.2 rfl⟩

/-- Counterexample to C6 as stated: an input highlight lacking an
importance value comes out of the enhancement map with `importance` still
`undefined` — not `medium`; the map instead defaults the `type` field. -/
theorem c6_counterexample :
    hlMapOne 0 (jobj [("text", jstr "p")]) =
      .ok (jobj [("text", jstr "p"), ("id", jstr "highlight-0"),
        ("type", jstr "important")]) ∧
    getF (jobj [("text", jstr "p"), ("id", jstr "highlight-0"),
      ("type", jstr "important")]) "importance" = jundef := ⟨rfl, rfl⟩

/-- Claim C8 (amended): normalization is idempotent on plain-object
outputs up to property lookup: whenever a run of `parseApiResponse` with a
nonempty normalization time produces a plain-object record, passing that
record back through `parseApiResponse` with the same url succeeds and
yields a record with exactly the same value at every key.  (Array-shaped
outputs are not preserved: re-normalization turns them into plain
objects.) -/
theorem c8_idempotent (raw : JSValue) (url now now2 : String) (hnow : now ≠ "")
    (l : List (String × JSValue))
    (h1 : parseApiResponse raw url now = .ok (jobj l)) :
    ∃ l2, parseApiResponse (jobj l) url now2 = .ok (jobj l2) ∧
      ∀ k, plookup l2 k = plookup l k := by
  have hmain : ∀ v0 : JSValue, (∀ m, v0 = jobj m → (keysOf m).Nodup) →
      validateAndEnhanceData v0 url now = .ok (jobj l) → RecordInv l url now := by
    intro v0 hnd0 hok
    by_cases hv : objLikeB v0 = true
    · cases v0 with
      | jobj m =>
        obtain ⟨l1, hl1, hinv1⟩ := validate_RecordInv m url now (hnd0 m rfl) (jobj l) hok
        injection hl1 with he
        rw [← he] at hinv1
        exact hinv1
      | jarr es ps =>
        exfalso
        have hth : vThrows (jarr es ps) = false := by
          have hh := validate_isOk_all (jarr es ps) url now
          rw [hok] at hh
          simp only [Except.isOk, Except.toBool] at hh
          cases hb : vThrows (jarr es ps)
          · rfl
          · rw [hb] at hh; simp at hh
        obtain ⟨w, hw, ho, ha, -⟩ := (validate_main (jarr es ps) url now rfl).2 hth
        rw [hok] at hw
        injection hw with hww
        rw [← hww] at ha
        simp [isArrB] at ha
      | jundef => simp [objLikeB] at hv
      | jnull => simp [objLikeB] at hv
      | jbool b => simp [objLikeB] at hv
      | jnum q => simp [objLikeB] at hv
      | jstr s => simp [objLikeB] at hv
    · have hp := validate_prim v0 url now (Bool.eq_false_iff.mpr hv)
      rw [hok] at hp
      simp [Except.isOk, Except.toBool] at hp
  have hinv : RecordInv l url now := by
    cases raw with
    | jstr s =>
      have hL : parseApiResponse (jstr s) url now =
          (match jsonParse (match fenceMatch (jsTrim s) with
            | some g => g
            | none => jsTrim s) with
          | some p => validateAndEnhanceData p url now
          | none => validateAndEnhanceData (catchRecord s url now) url now) := rfl
      rw [hL] at h1
      cases hp : jsonParse (match fenceMatch (jsTrim s) with
          | some g => g
          | none => jsTrim s) with
      | some parsed =>
        rw [hp] at h1
        exact hmain parsed (fun m hm => jsonParse_obj_nodup _ m (hm ▸ hp)) h1
      | none =>
        rw [hp] at h1
        refine hmain (catchRecord s url now) (fun m hm => ?_) h1
        simp only [catchRecord] at hm
        injection hm with hmm
        rw [← hmm]
        show (["title", "summary", "keyPoints", "keywords", "highlights",
          "readingTime", "sourceUrl", "createdAt"] : List String).Nodup
        decide
    | jobj l0 =>
      refine hmain (objBranch (jobj l0) url now) (fun m hm => ?_) h1
      simp only [objBranch] at hm
      injection hm with hmm
      rw [← hmm]
      exact objBranchList_nodup (jobj l0) url now
    | jarr es0 ps0 =>
      refine hmain (objBranch (jarr es0 ps0) url now) (fun m hm => ?_) h1
      simp only [objBranch] at hm
      injection hm with hmm
      rw [← hmm]
      exact objBranchList_nodup (jarr es0 ps0) url now
    | jundef => simp [parseApiResponse] at h1
    | jnull => simp [parseApiResponse] at h1
    | jbool b => simp [parseApiResponse] at h1
    | jnum q => simp [parseApiResponse] at h1
  obtain ⟨hnd, ht, hs, hkp, hkw, ⟨es, hes, hesg⟩, hrt, hsu, hca⟩ := hinv
  have h8 : truthy ((plookup l "createdAt").getD jundef) = true := by
    rcases hca with hca | hca
    · exact hca
    · rw [hca]
      simp [truthy, hnow]
  exact reparse_of_RecordInv l url now2 hnd ht hs hkp hkw es hes hesg hrt hsu h8

/-- Witness for C8: the record normalized from the empty object re-enters
normalization at a later time unchanged at every key. -/
theorem c8_idempotent_witness :
    ∃ l2, parseApiResponse
        (jobj [("title", jstr "网页分析结果"), ("summary", jstr "无法获取摘要"),
          ("keyPoints", jarr [] []), ("keywords", jarr [] []),
          ("highlights", jarr [] []), ("readingTime", jstr "未知"),
          ("sourceUrl", jstr "u"), ("createdAt", jstr "T")]) "u" "T2" =
        .ok (jobj l2) ∧
      ∀ k, plookup l2 k =
        plookup [("title", jstr "网页分析结果"), ("summary", jstr "无法获取摘要"),
          ("keyPoints", jarr [] []), ("keywords", jarr [] []),
          ("highlights", jarr [] []), ("readingTime", jstr "未知"),
          ("sourceUrl", jstr "u"), ("createdAt", jstr "T")] k :=
  c8_idempotent (jobj []) "u" "T" "T2" (by decide)
    [("title", jstr "网页分析结果"), ("summary", jstr "无法获取摘要"),
     ("keyPoints", jarr [] []), ("keywords", jarr [] []),
     ("highlights", jarr [] []), ("readingTime", jstr "未知"),
     ("sourceUrl", jstr "u"), ("createdAt", jstr "T")] rfl

/-- Counterexample to C8 as stated: the string input `[]` parses to an
empty JSON array, so the first normalized record is an array (with the
eight record fields as expando properties); passed back through
`parseApiResponse`, the object branch spreads it into a plain object, so
the second record is not an array — the record changed shape, refuting
idempotence on all outputs. -/
theorem c8_counterexample :
    Except.map isArrB (parseApiResponse (jstr "[]") "u" "T") = .ok true ∧
    (parseApiResponse (jstr "[]") "u" "T").bind
      (fun w1 => Except.map isArrB (parseApiResponse w1 "u" "T")) = .ok false :=
  ⟨rfl, rfl⟩

end WebSummarizer
